import Mathlib

/-!
Verification development for the company-contact crawler.

The definitions below are a shallow embedding, in Lean 4, of the
TypeScript crawler (the mynavi scraping script): company-name
normalization, the in-memory dedup set over normalized names, the CSV
record serializer and the quote-aware CSV parser, the GAS relay call,
the session capture/replay driver, configuration loading, course-candidate
scoring and selection, and the pagination/entity/course driver loop as a
trace-producing interpreter over an abstract site.

JavaScript strings are modelled as Lean `String`s (with the character-class
predicates restricted to the ASCII whitespace characters the crawler
actually meets); a JS `Set<string>` is modelled as the list of its elements
in insertion order; fallible calls are modelled with `Except`/`Option`;
asynchronously mutated flags (pause/stop) are modelled by schedules giving
the value seen at each successive observation.
-/

/-- Whitespace as matched by the JavaScript `\s` class and `String.trim`
(restricted to the ASCII whitespace characters). -/
def isJsSpace (c : Char) : Bool :=
  c = ' ' || c = '\t' || c = '\n' || c = '\r' || c = '\x0b' || c = '\x0c'

/-- Characters of the `[\n\r\t]` class used by `normalizeCompanyName`. -/
def isNlTab (c : Char) : Bool :=
  c = '\n' || c = '\r' || c = '\t'

/-- JavaScript `String.prototype.trim` on a character list. -/
def jsTrimChars (cs : List Char) : List Char :=
  ((cs.dropWhile isJsSpace).reverse.dropWhile isJsSpace).reverse

/-- JavaScript `String.prototype.trim`. -/
def jsTrim (s : String) : String :=
  String.mk (jsTrimChars s.data)

/-- Replace every maximal run of characters satisfying `p` by a single
space, as the global regex replaces `/[\n\r\t]+/g` and `/\s+/g` do.
The flag records whether the previous character was part of a run. -/
def collapseRunsGo (p : Char → Bool) : Bool → List Char → List Char
  | _, [] => []
  | inRun, c :: cs =>
    if p c then
      (if inRun then [] else [' ']) ++ collapseRunsGo p true cs
    else
      c :: collapseRunsGo p false cs

/-- Replace every maximal run of characters satisfying `p` by one space. -/
def collapseRuns (p : Char → Bool) (cs : List Char) : List Char :=
  collapseRunsGo p false cs

/-- The literal characters of the `PICK UP` marker, lower-cased. -/
def pickUpChars : List Char := ['p', 'i', 'c', 'k', ' ', 'u', 'p']

/-- Try to match the regex `\s*PICK UP\s*` (case-insensitive) at the head of
`cs`: skip the maximal whitespace run, require the seven marker characters
(case-folded), skip the maximal whitespace run after them, and return the
remainder.  Greedy matching never needs to backtrack here because a shorter
whitespace run would put a whitespace character where `P` is required. -/
def matchPickUpTail (cs : List Char) : Option (List Char) :=
  let rest := cs.dropWhile isJsSpace
  if (rest.take 7).map Char.toLower = pickUpChars then
    some ((rest.drop 7).dropWhile isJsSpace)
  else none

/-- Global replacement of `/\s*PICK UP\s*/gi` by the empty string: scan left
to right, and after each match continue right after it.  The fuel starts at
the length of the input; every step consumes at least one character, so the
fuel never runs out. -/
def stripPickUpFuel : Nat → List Char → List Char
  | 0, l => l
  | _ + 1, [] => []
  | fuel + 1, c :: cs =>
    match matchPickUpTail (c :: cs) with
    | some rest => stripPickUpFuel fuel rest
    | none => c :: stripPickUpFuel fuel cs

/-- Global replacement of `/\s*PICK UP\s*/gi` by the empty string. -/
def stripPickUp (cs : List Char) : List Char :=
  stripPickUpFuel cs.length cs

/-- The crawler's `normalizeCompanyName`: trim, delete every (whitespace
padded, case-insensitive) `PICK UP` marker, turn newline/carriage-return/tab
runs into single spaces, collapse whitespace runs to single spaces, and trim
again. -/
def normalizeCompanyName (companyName : String) : String :=
  String.mk
    (jsTrimChars
      (collapseRuns isJsSpace
        (collapseRuns isNlTab
          (stripPickUp (jsTrimChars companyName.data)))))

/-- Membership test of the JS `Set<string>` holding the normalized names,
modelled as the list of its elements in insertion order. -/
def setHas (s : List String) (x : String) : Bool :=
  s.contains x

/-- The JS `Set.add`: appends the element unless it is already present. -/
def setAdd (s : List String) (x : String) : List String :=
  if s.contains x then s else s ++ [x]

/-- The crawler's `checkCompanyExists`: `false` for an empty (falsy) name,
otherwise membership of the normalized name; never mutates the set. -/
def checkCompanyExists (companyName : String) (existingCompanies : List String) : Bool :=
  if companyName = "" then false
  else setHas existingCompanies (normalizeCompanyName companyName)

/-- The crawler's `checkAndAddCompany`: `false` (and no mutation) for an
empty name; otherwise `true` and no mutation when the normalized name is
already present, and `false` after adding it when it is not.  Returns the
flag together with the set after the call. -/
def checkAndAddCompany (companyName : String) (existingCompanies : List String) :
    Bool × List String :=
  if companyName = "" then (false, existingCompanies)
  else
    let normalized := normalizeCompanyName companyName
    if existingCompanies.contains normalized then (true, existingCompanies)
    else (false, setAdd existingCompanies normalized)

/-- One row of the internship detail table (`InternshipRow`). -/
structure InternshipRow where
  heading : String
  value : String
deriving DecidableEq

/-- The record persisted to the CSV ledger (`CsvRecord`). -/
structure CsvRecord where
  companyName : String
  phone : String
  email : String
  industry : String
  headOffice : String
  tableUrl : String
  tableJson : String
  annualRecruitment : String
  companySize : String
deriving DecidableEq

/-- JSON escaping of one character, as used by `JSON.stringify` for the
common characters appearing in the scraped tables. -/
def jsonEscapeChar (c : Char) : List Char :=
  if c = '"' then ['\\', '"']
  else if c = '\\' then ['\\', '\\']
  else if c = '\n' then ['\\', 'n']
  else if c = '\r' then ['\\', 'r']
  else if c = '\t' then ['\\', 't']
  else [c]

/-- The `JSON.stringify` of a string value. -/
def jsonString (s : String) : String :=
  "\"" ++ String.mk (s.data.flatMap jsonEscapeChar) ++ "\""

/-- The `JSON.stringify` of the scraped table rows (an array of
`{heading, value}` objects). -/
def jsonOfRows (rows : List InternshipRow) : String :=
  "[" ++ String.intercalate ","
    (rows.map fun r =>
      "\x7b\"heading\":" ++ jsonString r.heading ++ ",\"value\":" ++ jsonString r.value ++ "\x7d")
  ++ "]"

/-- The crawler's `saveRecordIfNew`, which guards a persist with the dedup
set: normalize the record's company name (without any empty-name guard); if
the normalized name is already in the set, skip (return `true` and persist
nothing); otherwise add it to the set, persist the record, and return
`false`.  The result is the skip flag, the set after the call, and the list
of records persisted by the call. -/
def saveRecordIfNew (record : CsvRecord) (existingCompanies : List String) :
    Bool × List String × List CsvRecord :=
  let normalizedCompanyName := normalizeCompanyName record.companyName
  if existingCompanies.contains normalizedCompanyName then
    (true, existingCompanies, [])
  else
    (false, setAdd existingCompanies normalizedCompanyName, [record])

/-- The crawler's `escapeCsvValue`: double every embedded double quote. -/
def escapeCsvChars (value : List Char) : List Char :=
  value.flatMap fun c => if c = '"' then ['"', '"'] else [c]

/-- The crawler's `escapeCsvValue` on strings. -/
def escapeCsvValue (value : String) : String :=
  String.mk (escapeCsvChars value.data)

/-- One CSV field as the serializer writes it: wrapped in double quotes with
embedded quotes doubled. -/
def quoteField (f : List Char) : List Char :=
  '"' :: (escapeCsvChars f ++ ['"'])

/-- A full CSV line as `appendCsvRecord` writes it: every field quoted,
fields joined with commas, a final newline. -/
def serializeRowChars (fields : List (List Char)) : List Char :=
  (List.intercalate [','] (fields.map quoteField)) ++ ['\n']

/-- String-level CSV line serializer. -/
def serializeRow (fields : List String) : String :=
  String.mk (serializeRowChars (fields.map String.data))

/-- The twenty fields of the ledger row built by `appendCsvRecord`, in
column order (the blanks are the manually-filled sales columns).
`listSource` is the timestamped source marker the code computes from the
clock. -/
def recordRow (record : CsvRecord) (listSource : String) : List String :=
  ["", "", "", "", "", "", "",
   record.companyName, record.phone, record.email,
   "", "",
   record.tableUrl, listSource,
   record.companySize, record.industry, record.headOffice, record.annualRecruitment,
   "", ""]

/-- The CSV line `appendCsvRecord` appends for a record. -/
def csvLine (record : CsvRecord) (listSource : String) : String :=
  serializeRow (recordRow record listSource)

/-- A field is non-blank when trimming leaves it non-empty (the truthiness
test `f.trim()` in the parser). -/
def someNonBlank (row : List (List Char)) : Bool :=
  row.any fun f => jsTrimChars f ≠ []

/-- The state machine of the crawler's `parseCsvContent`, processing the
remaining characters with the in-quotes flag, the field and row being
accumulated, and the completed rows.  Branches mirror the source: a quote
toggles the flag or, doubled inside quotes, appends a literal quote; a comma
outside quotes ends the field; a newline (or CR, with CRLF taken together)
outside quotes ends the row, which is kept only if some field is non-blank;
every other character is appended to the field. -/
def parseCsvAux (inQuotes : Bool) (currentField : List Char)
    (currentRow : List (List Char)) (rows : List (List (List Char))) :
    List Char → List (List (List Char))
  | [] =>
    if currentField ≠ [] ∨ currentRow ≠ [] then
      let row := currentRow ++ [currentField]
      if someNonBlank row then rows ++ [row] else rows
    else rows
  | c :: rest =>
    if c = '"' then
      if inQuotes then
        if rest.head? = some '"' then
          parseCsvAux inQuotes (currentField ++ ['"']) currentRow rows rest.tail
        else parseCsvAux false currentField currentRow rows rest
      else parseCsvAux true currentField currentRow rows rest
    else if c = ',' ∧ inQuotes = false then
      parseCsvAux inQuotes [] (currentRow ++ [currentField]) rows rest
    else if (c = '\n' ∨ c = '\r') ∧ inQuotes = false then
      let row := currentRow ++ [currentField]
      let rows' := if someNonBlank row then rows ++ [row] else rows
      let rest' := if c = '\r' ∧ rest.head? = some '\n' then rest.tail else rest
      parseCsvAux false [] [] rows' rest'
    else
      parseCsvAux inQuotes (currentField ++ [c]) currentRow rows rest
termination_by l => l.length
decreasing_by all_goals (try split) <;> (simp [List.length_tail]; try omega)

/-- The crawler's `parseCsvContent`: a list of rows, each a list of fields. -/
def parseCsvContent (content : String) : List (List String) :=
  (parseCsvAux false [] [] [] content.data).map fun row => row.map String.mk

/-- The GAS upload settings (`GasConfig`). -/
structure GasConfig where
  uploadUrl : String
  token : Option String
deriving DecidableEq

/-- Outcome of the `fetch` call inside `postRowToGas`, decided by the
environment: the abort controller fired (the 10-second timeout), the request
failed with a network error, or a response arrived with a status code,
status text and body text. -/
inductive FetchOutcome where
  | aborted
  | netError (message : String)
  | response (status : Nat) (statusText : String) (body : String)
deriving DecidableEq

/-- The request `postRowToGas` builds: the configured URL, the JSON body
`{ row, token }` (token defaulting to the empty string), and the optional
`X-Auth-Token` header carrying the token when one is configured. -/
structure GasRequest where
  url : String
  bodyRow : List String
  bodyToken : String
  authHeader : Option String
deriving DecidableEq

/-- The request built by `postRowToGas` before fetching. -/
def mkGasRequest (gas : GasConfig) (row : List String) : GasRequest :=
  { url := gas.uploadUrl
    bodyRow := row
    bodyToken := gas.token.getD ""
    authHeader := gas.token }

/-- Whether a status code counts as `Response.ok` (2xx). -/
def statusOk (status : Nat) : Bool :=
  200 ≤ status && status < 300

/-- The crawler's `postRowToGas`, given the fetch outcome: an abort becomes
the timeout error, a network error is rethrown, a non-2xx response becomes
an upload-failure error, and a 2xx response yields its body text (or an
`HTTP <status>` marker when the body is empty). -/
def postRowToGas (gas : GasConfig) (row : List String) (outcome : FetchOutcome) :
    Except String String :=
  let _ := mkGasRequest gas row
  match outcome with
  | .aborted => .error "GAS への行アップロードがタイムアウトしました（10 秒経過）"
  | .netError message => .error message
  | .response status statusText body =>
    if statusOk status then
      .ok (if body ≠ "" then body else "HTTP " ++ toString status)
    else
      .error ("GAS への行アップロードに失敗しました: " ++ toString status ++ " " ++ statusText
        ++ "\n" ++ body)

/-- Observable actions of `appendCsvRecord`, in order: the synchronous CSV
append, the relay request, and either the logged relay response or the
logged (caught) relay error. -/
inductive PersistEv where
  | csvAppend (line : String)
  | gasRequest (req : GasRequest)
  | gasResponse (text : String)
  | gasErrorLogged (message : String)
deriving DecidableEq

/-- The crawler's `appendCsvRecord`: append the serialized line to the CSV
file first; then, only when a GAS configuration is present, send the row to
GAS, catching and logging any relay error.  Returns the CSV contents after
the call together with the trace of observable actions; the function always
returns normally (no relay failure escapes it). -/
def appendCsvRecord (record : CsvRecord) (listSource : String)
    (gasConfig : Option GasConfig) (outcome : FetchOutcome) (csv : List String) :
    List String × List PersistEv :=
  let line := csvLine record listSource
  let csv' := csv ++ [line]
  match gasConfig with
  | none => (csv', [.csvAppend line])
  | some gas =>
    let row := recordRow record listSource
    match postRowToGas gas row outcome with
    | .ok text =>
      (csv', [.csvAppend line, .gasRequest (mkGasRequest gas row), .gasResponse text])
    | .error message =>
      (csv', [.csvAppend line, .gasRequest (mkGasRequest gas row), .gasErrorLogged message])

/-- Observable actions of the session capture/replay flow
(`ensureSessionAndDownload`): an attempted protected CSV download with some
session state, the interactive capture flow, and a persist of a session
state.  The state type is abstract. -/
inductive SessionEv (σ : Type) where
  | downloadAttempt (state : σ)
  | captureFlow
  | persistState (state : σ)
deriving DecidableEq

/-- The crawler's `ensureSessionAndDownload`, with the environment abstracted:
`saved` is the persisted session state (`loadSession`), `download` is the
protected CSV-export request with a given state (`downloadCsvWithSession`),
and `captured` is the state the interactive capture flow would snapshot.
A saved state is tried first and, on success, returned with no capture; on
failure (or with no saved state) the capture flow runs exactly once, the
fresh state is persisted (inside `captureSessionInteractive`, before
returning), and the request is retried once with it, any failure
propagating. -/
def ensureSessionAndDownload {σ γ : Type} (saved : Option σ)
    (download : σ → Except String γ) (captured : σ) :
    List (SessionEv σ) × Except String γ :=
  match saved with
  | some state =>
    match download state with
    | .ok csv => ([.downloadAttempt state], .ok csv)
    | .error _ =>
      ([.downloadAttempt state, .captureFlow, .persistState captured,
        .downloadAttempt captured],
       download captured)
  | none =>
    ([.captureFlow, .persistState captured, .downloadAttempt captured],
     download captured)

/-- The on-disk configuration as parsed (`Partial<MynaviConfig>`): every
field may be absent.  A `none` models both an absent field and a field of
the wrong type; numbers are modelled as integers. -/
structure RawConfig where
  SEARCH_URL : Option String
  START_PAGE : Option Int
  MAX_COMPANIES : Option Int
  SPREADSHEET_URL : Option String
  CSV_PATH : Option String
  GAS_UPLOAD_URL : Option String
  GAS_UPLOAD_TOKEN : Option String
deriving DecidableEq

/-- The configuration record the crawler runs with (`MynaviConfig`). -/
structure MynaviConfig where
  SEARCH_URL : String
  START_PAGE : Int
  MAX_COMPANIES : Option Int
  SPREADSHEET_URL : Option String
  CSV_PATH : Option String
  GAS_UPLOAD_URL : Option String
  GAS_UPLOAD_TOKEN : Option String
deriving DecidableEq

/-- The configuration `loadConfig` falls back to when reading or validating
the config file fails: the hard-coded default search URL and start page 1. -/
def defaultConfig : MynaviConfig :=
  { SEARCH_URL :=
      "https://job.mynavi.jp/27/pc/corpinfo/searchCorpListByGenCond/index/?cond=HR:13,14,25,26,27,28,29,30/ER:1"
    START_PAGE := 1
    MAX_COMPANIES := none
    SPREADSHEET_URL := none
    CSV_PATH := none
    GAS_UPLOAD_URL := none
    GAS_UPLOAD_TOKEN := none }

/-- The crawler's `loadConfig`: `raw` is the parsed config file (`none` when
reading or JSON-parsing failed) and `envMaxCompanies` the parsed
`MAX_COMPANIES` environment variable (`none` when unset or not a number).
A missing or empty `SEARCH_URL` raises an error that the function's own
`catch` turns into the default configuration (with a warning), so the
function never fails.  The start page defaults to 1 unless at least 1; the
environment cap takes precedence over the file cap, each accepted only when
at least 1. -/
def loadConfig (raw : Option RawConfig) (envMaxCompanies : Option Int) : MynaviConfig :=
  match raw with
  | none => defaultConfig
  | some parsed =>
    match parsed.SEARCH_URL with
    | none => defaultConfig
    | some url =>
      if url = "" then defaultConfig
      else
        let startPage : Int :=
          match parsed.START_PAGE with
          | some sp => if sp ≥ 1 then sp else 1
          | none => 1
        let envCap : Option Int :=
          match envMaxCompanies with
          | some m => if m ≥ 1 then some m else none
          | none => none
        let maxCompanies : Option Int :=
          match envCap with
          | some m => some m
          | none =>
            match parsed.MAX_COMPANIES with
            | some m => if m ≥ 1 then some m else none
            | none => none
        { SEARCH_URL := url
          START_PAGE := startPage
          MAX_COMPANIES := maxCompanies
          SPREADSHEET_URL := parsed.SPREADSHEET_URL
          CSV_PATH := parsed.CSV_PATH
          GAS_UPLOAD_URL := parsed.GAS_UPLOAD_URL
          GAS_UPLOAD_TOKEN := parsed.GAS_UPLOAD_TOKEN }

/-- Truthiness of an optional string field (absent or empty is falsy). -/
def optBlank (o : Option String) : Bool :=
  match o with
  | none => true
  | some s => s = ""

/-- The crawler's `getGasConfig`: `none` (relay disabled, with a warning)
when `GAS_UPLOAD_URL` is unset, otherwise the URL with the optional token. -/
def getGasConfig (config : MynaviConfig) : Option GasConfig :=
  if optBlank config.GAS_UPLOAD_URL then none
  else some { uploadUrl := config.GAS_UPLOAD_URL.getD "", token := config.GAS_UPLOAD_TOKEN }

/-- The crawler's `getSheetConfig`: errors when `SPREADSHEET_URL` or
`CSV_PATH` is unset, otherwise both values. -/
def getSheetConfig (config : MynaviConfig) : Except String (String × String) :=
  if optBlank config.SPREADSHEET_URL then
    .error "SPREADSHEET_URL が設定されていません。mynavi-config.json を確認してください。"
  else if optBlank config.CSV_PATH then
    .error "CSV_PATH が設定されていません。mynavi-config.json を確認してください。"
  else .ok (config.SPREADSHEET_URL.getD "", config.CSV_PATH.getD "")

/-- Whether `downloadCsvFromSpreadsheet` performs the sheet sync: its guard
skips (with a log line, no error) unless both `SPREADSHEET_URL` and
`CSV_PATH` are set; only then does it call `getSheetConfig` and the session
flow. -/
def sheetSyncRuns (config : MynaviConfig) : Bool :=
  !(optBlank config.SPREADSHEET_URL || optBlank config.CSV_PATH)

/-- The data extracted from one internship course sub-page (`CourseData`). -/
structure CourseData where
  companyName : String
  tableRows : List InternshipRow
  phones : List String
  emails : List String
  sourceUrl : String
deriving DecidableEq

/-- The auxiliary company attributes read from the outline page
(`CompanyMeta`); each field independently defaults to a sentinel. -/
structure CompanyMeta where
  industry : String
  headOffice : String
  annualRecruitment : String
  companySize : String
deriving DecidableEq

/-- A course candidate together with its completeness score, as built by the
selection block (`scored`). -/
structure ScoredCourse where
  course : CourseData
  score : Nat
  hasPhone : Bool
  hasEmail : Bool
deriving DecidableEq

/-- Score one course candidate by completeness, exactly as the selection
block does: 3 with both phone and email, 2 with phone only, 1 with email
only, 0 with neither. -/
def scoreCourse (c : CourseData) : ScoredCourse :=
  let hasPhone := !c.phones.isEmpty
  let hasEmail := !c.emails.isEmpty
  let score : Nat :=
    if hasPhone && hasEmail then 3
    else if hasPhone then 2
    else if hasEmail then 1
    else 0
  { course := c, score := score, hasPhone := hasPhone, hasEmail := hasEmail }

/-- Score a candidate list in encounter order. -/
def scoreCourses (l : List CourseData) : List ScoredCourse :=
  l.map scoreCourse

/-- Stable insertion for the descending sort: the new element goes after
every already-placed element of score at least its own, so elements of equal
score keep their encounter order. -/
def insertScoredDesc : List ScoredCourse → ScoredCourse → List ScoredCourse
  | [], x => [x]
  | y :: ys, x =>
    if y.score ≥ x.score then y :: insertScoredDesc ys x
    else x :: y :: ys

/-- The stable descending sort by score, modelling
`scored.sort((a, b) => b.score - a.score)` (`Array.prototype.sort` is
stable). -/
def sortScoredDesc (l : List ScoredCourse) : List ScoredCourse :=
  l.foldl insertScoredDesc []

/-- The candidate the selection block picks: the head of the stable
descending sort (`scored[0]`). -/
def bestCourseOf (l : List CourseData) : Option ScoredCourse :=
  (sortScoredDesc (scoreCourses l)).head?

/-- Modelled from the spec: the first candidate of maximal score in
encounter order (the spec's description of the selection rule, to be
compared with `bestCourseOf`). -/
def firstMaxScored : List ScoredCourse → Option ScoredCourse
  | [] => none
  | x :: xs =>
    match firstMaxScored xs with
    | none => some x
    | some y => if y.score > x.score then some y else some x

/-- JavaScript `a || b` on strings: `b` when `a` is empty (falsy). -/
def jsOrElse (a b : String) : String :=
  if a = "" then b else a

/-- What the environment yields when the crawler navigates to one company's
detail pages: an exception somewhere during processing (caught by the
per-company handler); an outline URL not containing `outline`, so no
internship page URL can be derived; or the outline metadata with the
derived internship-page URL, the course links (each with the course data
its sub-page yields, `none` when the detail table is missing) and the
result of extracting a table from the internship page itself (used only
when there are no course links). -/
inductive DetailOutcome where
  | fail
  | noOutlineUrl (meta : CompanyMeta)
  | detail (meta : CompanyMeta) (isPageUrl : String)
      (courseLinks : List (String × Option CourseData))
      (isPageTable : Option CourseData)
deriving DecidableEq

/-- One entity of a search-results page: the anchor text (company name), the
anchor href, and what its detail pages yield. -/
structure Company where
  name : String
  url : String
  detail : DetailOutcome
deriving DecidableEq

/-- One search-results page: its company links and the `#lowerNextPage`
control (`none` when absent, otherwise its class attribute). -/
structure PageData where
  companies : List Company
  nextButton : Option String
deriving DecidableEq

/-- Schedules for the asynchronously mutated run-control flags: `shouldStop`
is `true` from its `stopFrom`-th observation on (it is monotone — set once,
never cleared; `none` means it is never set), and `pause` gives the value of
`isPaused` seen at each successive `waitIfPaused` call (a `true` means that
call actually waited; the wait itself ends when the operator unpauses, so
only the observed value matters to the control flow). -/
structure Sched where
  stopFrom : Option Nat
  pause : Nat → Bool

/-- The value of `shouldStop` at its k-th observation. -/
def stopVal (sched : Sched) (k : Nat) : Bool :=
  match sched.stopFrom with
  | none => false
  | some m => m ≤ k

/-- The driver configuration: the configured start page and optional
maximum number of newly inserted companies. -/
structure DriverConfig where
  startPage : Nat
  maxCompanies : Option Nat
deriving DecidableEq

/-- Whether the insert cap has been reached at a given count. -/
def capReached (cfg : DriverConfig) (added : Nat) : Bool :=
  match cfg.maxCompanies with
  | some m => added ≥ m
  | none => false

/-- The mutable state threaded through the crawl: the dedup set, the number
of companies newly added this run (`addedCompanyCount`), and the counters
indexing the next `shouldStop` and `isPaused` observations. -/
structure CrawlSt where
  existing : List String
  added : Nat
  sc : Nat
  pc : Nat
deriving DecidableEq

/-- The checkpoint at which a pause observation happens: top of a page
iteration, top of an entity iteration, or top of a course iteration. -/
inductive CheckSite where
  | pageTop
  | entityTop
  | courseTop
deriving DecidableEq

/-- Observable events of the crawl, in program order: entering a page
iteration (with its 1-based index), a `waitIfPaused` observation (with its
checkpoint and the observed value), the navigation to a company's detail
page, the fetch of one course sub-page, a record appended to the ledger
(named by its company), the end of one entity iteration, the fixed
inter-page delay, and the next-page navigation. -/
inductive Ev where
  | visitPage (idx : Nat)
  | pauseObserve (site : CheckSite) (paused : Bool)
  | navStart (name : String)
  | courseFetch (url : String)
  | appendRecord (name : String)
  | entityEnd (name : String)
  | delay
  | nextNav
deriving DecidableEq

/-- Advance the stop counter by one. -/
def bumpSc (st : CrawlSt) : CrawlSt := { st with sc := st.sc + 1 }

/-- Advance the pause counter by one. -/
def bumpPc (st : CrawlSt) : CrawlSt := { st with pc := st.pc + 1 }

/-- The course enumeration loop of one company: at the top of each
iteration, break on the stop flag, then observe the pause flag; then (after
the fixed delay) fetch the course sub-page; a sub-page without a detail
table contributes nothing; otherwise the course (with its company name
overwritten by the search-result name) is collected, and the loop breaks as
soon as a course has both a phone and an email.  Returns the events, the
collected courses in encounter order, and the state. -/
def courseLoop (sched : Sched) (finalName : String) :
    List (String × Option CourseData) → CrawlSt → List Ev × List CourseData × CrawlSt
  | [], st => ([], [], st)
  | (url, result) :: rest, st =>
    if stopVal sched st.sc then ([], [], bumpSc st)
    else
      let st1 := bumpSc st
      let paused := sched.pause st1.pc
      let st2 := bumpPc st1
      let evs0 := [Ev.pauseObserve .courseTop paused, Ev.courseFetch url]
      match result with
      | none =>
        let (evs, courses, st') := courseLoop sched finalName rest st2
        (evs0 ++ evs, courses, st')
      | some data =>
        let data' := { data with companyName := finalName }
        if !data.phones.isEmpty && !data.emails.isEmpty then
          (evs0, [data'], st2)
        else
          let (evs, courses, st') := courseLoop sched finalName rest st2
          (evs0 ++ evs, data' :: courses, st')

/-- The record persisted when the internship page has no course links and no
detail table of its own. -/
def mkNoDetailRecord (finalName : String) (meta : CompanyMeta) (isPageUrl : String) :
    CsvRecord :=
  { companyName := jsOrElse finalName "(企業名不明)"
    phone := "詳細無し"
    email := "詳細無し"
    industry := meta.industry
    headOffice := meta.headOffice
    tableUrl := isPageUrl
    tableJson := jsonString "詳細無し"
    annualRecruitment := meta.annualRecruitment
    companySize := meta.companySize }

/-- The record persisted when course links existed but none yielded a
detail table. -/
def mkNoTableRecord (finalName : String) (meta : CompanyMeta) (isPageUrl : String) :
    CsvRecord :=
  { companyName := finalName
    phone := "取得失敗"
    email := "取得失敗"
    industry := meta.industry
    headOffice := meta.headOffice
    tableUrl := isPageUrl
    tableJson := "[]"
    annualRecruitment := meta.annualRecruitment
    companySize := meta.companySize }

/-- The record persisted from the selected best course. -/
def mkBestRecord (finalName : String) (meta : CompanyMeta) (best : ScoredCourse) :
    CsvRecord :=
  { companyName := finalName
    phone := best.course.phones.headD "無記載"
    email := best.course.emails.headD "無記載"
    industry := meta.industry
    headOffice := meta.headOffice
    tableUrl := best.course.sourceUrl
    tableJson := jsonOfRows best.course.tableRows
    annualRecruitment := meta.annualRecruitment
    companySize := meta.companySize }

/-- Persist a record through `saveRecordIfNew` and book-keep the insert
count, as every persist site of the entity loop does: on skip nothing is
appended; otherwise the append event is emitted, the count incremented, and
the entity loop is broken when the count reaches the cap.  Returns the
events, the state, and the cap-break flag. -/
def persistStep (cfg : DriverConfig) (name : String) (record : CsvRecord) (st : CrawlSt) :
    List Ev × CrawlSt × Bool :=
  let (skipped, existing', _) := saveRecordIfNew record st.existing
  if skipped then ([Ev.entityEnd name], { st with existing := existing' }, false)
  else
    let st' := { st with existing := existing', added := st.added + 1 }
    ([Ev.appendRecord record.companyName, Ev.entityEnd name], st', capReached cfg st'.added)

/-- Processing of one company inside the entity loop (the body of the `try`
with its `catch`): an empty name is skipped; a name already in the dedup set
is skipped after adding its normalized form; otherwise the detail navigation
starts, and the outcome decides between the exception path (caught, entity
over), the missing-outline-URL path (skipped), the no-course persists, the
course enumeration followed by scoring, stable sort, selection of the first
best candidate and persist.  Returns the events, the state, and whether the
entity loop must break because the cap was reached. -/
def processCompany (cfg : DriverConfig) (sched : Sched) (c : Company) (st : CrawlSt) :
    List Ev × CrawlSt × Bool :=
  if c.name = "" then ([Ev.entityEnd c.name], st, false)
  else if checkCompanyExists c.name st.existing then
    ([Ev.entityEnd c.name],
     { st with existing := setAdd st.existing (normalizeCompanyName c.name) }, false)
  else
    match c.detail with
    | .fail => ([Ev.navStart c.name, Ev.entityEnd c.name], st, false)
    | .noOutlineUrl _ => ([Ev.navStart c.name, Ev.entityEnd c.name], st, false)
    | .detail meta isPageUrl courseLinks isPageTable =>
      if courseLinks.isEmpty then
        match isPageTable with
        | some data =>
          let data' := { data with companyName := c.name }
          let best := (sortScoredDesc (scoreCourses [data'])).headD (scoreCourse data')
          let (evs, st', capBreak) :=
            persistStep cfg c.name (mkBestRecord c.name meta best) st
          ([Ev.navStart c.name] ++ evs, st', capBreak)
        | none =>
          let (evs, st', capBreak) :=
            persistStep cfg c.name (mkNoDetailRecord c.name meta isPageUrl) st
          ([Ev.navStart c.name] ++ evs, st', capBreak)
      else
        let (cevs, courses, st1) := courseLoop sched c.name courseLinks st
        match courses with
        | [] =>
          let (evs, st', capBreak) :=
            persistStep cfg c.name (mkNoTableRecord c.name meta isPageUrl) st1
          ([Ev.navStart c.name] ++ cevs ++ evs, st', capBreak)
        | c0 :: cs =>
          let best := (sortScoredDesc (scoreCourses (c0 :: cs))).headD (scoreCourse c0)
          let (evs, st', capBreak) :=
            persistStep cfg c.name (mkBestRecord c.name meta best) st1
          ([Ev.navStart c.name] ++ cevs ++ evs, st', capBreak)

/-- The entity loop over one page's company links: at the top of each
iteration, break on the stop flag, then break when the cap has been
reached, then observe the pause flag; then process the company, breaking
when its persist reached the cap. -/
def entityLoop (cfg : DriverConfig) (sched : Sched) :
    List Company → CrawlSt → List Ev × CrawlSt
  | [], st => ([], st)
  | c :: cs, st =>
    if stopVal sched st.sc then ([], bumpSc st)
    else
      let st1 := bumpSc st
      if capReached cfg st1.added then ([], st1)
      else
        let paused := sched.pause st1.pc
        let st2 := bumpPc st1
        let (evs, st3, capBreak) := processCompany cfg sched c st2
        if capBreak then ([Ev.pauseObserve .entityTop paused] ++ evs, st3)
        else
          let (evs', st4) := entityLoop cfg sched cs st3
          ([Ev.pauseObserve .entityTop paused] ++ evs ++ evs', st4)

/-- Why the pagination loop ended: the stop flag, the insert cap, a missing
next-page control, a disabled next-page control — or the abstract finite
site ran out of pages while the next-page control was still enabled (an
artifact of the finite site model; a well-formed site ends with a page
whose next control is absent or disabled). -/
inductive TermReason where
  | stopped
  | capReached
  | noNext
  | nextDisabled
  | ranOffSite
deriving DecidableEq

/-- Whether `needle` is a prefix of the second list. -/
def hasPrefixChars : List Char → List Char → Bool
  | [], _ => true
  | _ :: _, [] => false
  | c :: cs, h :: hs => c = h && hasPrefixChars cs hs

/-- Whether `needle` occurs as a contiguous substring (JS `includes`). -/
def hasSubstrChars (needle : List Char) : List Char → Bool
  | [] => needle.isEmpty
  | h :: hs => hasPrefixChars needle (h :: hs) || hasSubstrChars needle hs

/-- Whether the class attribute of the next-page control marks it disabled
(`class.includes('disabled')`). -/
def classDisabled (cls : String) : Bool :=
  hasSubstrChars "disabled".data cls.data

/-- The pagination loop.  Each iteration records the page index just
processed, breaks on the stop flag or the cap, observes the pause flag,
reads the page's company links, and — only from the configured start page
on — runs the entity loop followed by the post-loop stop and cap checks;
then the next-page control decides: absent or disabled ends the loop
(reporting the index of the page just processed), otherwise the page index
is incremented, the fixed delay elapses, and navigation to the next page
fires.  Returns the events, the final state, the termination reason, and
the reported last page index. -/
def pageLoop (cfg : DriverConfig) (sched : Sched) :
    List PageData → Nat → CrawlSt → List Ev × CrawlSt × TermReason × Nat
  | [], idx, st => ([], st, .ranOffSite, idx - 1)
  | p :: rest, idx, st =>
    if stopVal sched st.sc then ([Ev.visitPage idx], bumpSc st, .stopped, idx)
    else
      let st1 := bumpSc st
      if capReached cfg st1.added then ([Ev.visitPage idx], st1, .capReached, idx)
      else
        let paused := sched.pause st1.pc
        let st2 := bumpPc st1
        let hd := [Ev.visitPage idx, Ev.pauseObserve .pageTop paused]
        let step : (List Ev × CrawlSt × TermReason × Nat) ⊕ (List Ev × CrawlSt) :=
          if cfg.startPage ≤ idx then
            let (eevs, st3) := entityLoop cfg sched p.companies st2
            if stopVal sched st3.sc then .inl (hd ++ eevs, bumpSc st3, .stopped, idx)
            else
              let st4 := bumpSc st3
              if capReached cfg st4.added then .inl (hd ++ eevs, st4, .capReached, idx)
              else .inr (hd ++ eevs, st4)
          else .inr (hd, st2)
        match step with
        | .inl r => r
        | .inr (evs, stM) =>
          match p.nextButton with
          | none => (evs, stM, .noNext, idx)
          | some cls =>
            if classDisabled cls then (evs, stM, .nextDisabled, idx)
            else
              let (evs', st', reason, last) := pageLoop cfg sched rest (idx + 1) stM
              (evs ++ [Ev.delay, Ev.nextNav] ++ evs', st', reason, last)

/-- The result of one crawl run. -/
structure RunResult where
  trace : List Ev
  finalSt : CrawlSt
  reason : TermReason
  lastReport : Nat

/-- One run of `processAllCompaniesFromSearch` over an abstract site, from
page index 1, with the dedup set seeded from the existing ledger. -/
def runCrawl (cfg : DriverConfig) (sched : Sched) (site : List PageData)
    (initialCompanies : List String) : RunResult :=
  let st0 : CrawlSt := { existing := initialCompanies, added := 0, sc := 0, pc := 0 }
  let (evs, st, reason, last) := pageLoop cfg sched site 1 st0
  { trace := evs, finalSt := st, reason := reason, lastReport := last }


/-- Number of interactive capture flows in a session trace. -/
def countCaptures {σ : Type} (t : List (SessionEv σ)) : Nat :=
  t.countP fun e => match e with
    | .captureFlow => true
    | _ => false

/-- Number of records appended to the ledger in a crawl trace. -/
def countAppends : List Ev → Nat
  | [] => 0
  | .appendRecord _ :: t => countAppends t + 1
  | _ :: t => countAppends t

/-- Check that, with `c` records already appended, every detail navigation
in the trace happens while fewer than `m` records have been appended. -/
def navGuardCheck (m : Nat) : Nat → List Ev → Bool
  | _, [] => true
  | c, .navStart _ :: t => decide (c < m) && navGuardCheck m c t
  | c, .appendRecord _ :: t => navGuardCheck m (c + 1) t
  | c, _ :: t => navGuardCheck m c t

/-- The index of the last page iteration entered in a trace. -/
def lastVisit : List Ev → Option Nat
  | [] => none
  | .visitPage i :: t => some ((lastVisit t).getD i)
  | _ :: t => lastVisit t

/-- Whether a trace contains no detail navigation. -/
def noNavStart (t : List Ev) : Bool :=
  t.all fun e => match e with
    | .navStart _ => false
    | _ => true

/-- Whether a trace contains no page-level event (page visit, inter-page
delay, next-page navigation). -/
def noPageEvents (t : List Ev) : Bool :=
  t.all fun e => match e with
    | .visitPage _ => false
    | .delay => false
    | .nextNav => false
    | _ => true

/-- The in-entity flag after scanning a trace: set by a detail navigation,
cleared by the end of an entity iteration. -/
def inEAfter : Bool → List Ev → Bool
  | b, [] => b
  | _, .navStart _ :: t => inEAfter true t
  | _, .entityEnd _ :: t => inEAfter false t
  | b, _ :: t => inEAfter b t

/-- The page-level events of a trace, in order. -/
def pageNavEvents (t : List Ev) : List Ev :=
  t.filter fun e => match e with
    | .visitPage _ => true
    | .delay => true
    | .nextNav => true
    | _ => false

/-- The page-level event pattern of a crawl that enters `n` successive page
iterations starting at index `k`: each page visit after the first is
preceded by the fixed delay and the next-page navigation. -/
def navPattern (k : Nat) : Nat → List Ev
  | 0 => []
  | 1 => [Ev.visitPage k]
  | n + 2 => Ev.visitPage k :: Ev.delay :: Ev.nextNav :: navPattern (k + 1) (n + 1)

/-- A well-formed finite site: its last page has a next-page control that is
absent or disabled, so a real crawl never runs off the end of the list. -/
def siteClosed (site : List PageData) : Prop :=
  ∃ p, site.getLast? = some p ∧
    (p.nextButton = none ∨ ∃ cls, p.nextButton = some cls ∧ classDisabled cls = true)

/-- Check that the page iterations in the trace carry the consecutive
indices `k`, `k + 1`, and so on, in order. -/
def visitsOkFrom : Nat → List Ev → Bool
  | _, [] => true
  | k, .visitPage i :: t => decide (i = k) && visitsOkFrom (k + 1) t
  | k, _ :: t => visitsOkFrom k t

/-- Check that every page iteration after the first is entered right after
the fixed inter-page delay followed by the next-page navigation: the two
`Option Ev` arguments carry the last-but-one and last preceding events. -/
def advanceOkAux : Option Ev → Option Ev → List Ev → Bool
  | a, b, [] =>
    let _ := a
    let _ := b
    true
  | a, b, e :: t =>
    (match e with
     | .visitPage i =>
       decide ((i = 1 ∧ a = none ∧ b = none) ∨ (a = some Ev.delay ∧ b = some Ev.nextNav))
     | _ => true)
    && advanceOkAux b (some e) t

/-- Check the advance shape of a whole trace. -/
def advanceOk (t : List Ev) : Bool :=
  advanceOkAux none none t

/-- Scan a trace with the in-entity flag (set by a detail navigation,
cleared by the end of the entity iteration) and check that every pause
observation made mid-entity is the course-iteration checkpoint and every
pause observation made outside an entity is a page-top or entity-top
checkpoint. -/
def pauseSitesOk : Bool → List Ev → Bool
  | _, [] => true
  | _, .navStart _ :: t => pauseSitesOk true t
  | _, .entityEnd _ :: t => pauseSitesOk false t
  | inEntity, .pauseObserve site _ :: t =>
    (if inEntity then decide (site = CheckSite.courseTop)
     else decide (site = CheckSite.pageTop ∨ site = CheckSite.entityTop))
    && pauseSitesOk inEntity t
  | inEntity, _ :: t => pauseSitesOk inEntity t

/-- Whether the trace contains a pause observation that actually waited
(observed value `true`) strictly inside an entity's processing, between its
detail navigation and the end of its iteration. -/
def hasMidEntityPauseWait : Bool → List Ev → Bool
  | _, [] => false
  | _, .navStart _ :: t => hasMidEntityPauseWait true t
  | _, .entityEnd _ :: t => hasMidEntityPauseWait false t
  | inEntity, .pauseObserve _ b :: t =>
    (inEntity && b) || hasMidEntityPauseWait inEntity t
  | inEntity, _ :: t => hasMidEntityPauseWait inEntity t

/-- The course sub-page URLs fetched in a trace, in order. -/
def fetchedUrls (t : List Ev) : List String :=
  t.filterMap fun e => match e with
    | .courseFetch u => some u
    | _ => none

/-- The effect of one stable-descending insertion on the head of the
sorted list: the incoming element becomes the head only when its score
strictly exceeds the current head's. -/
def chooseScored (b : Option ScoredCourse) (x : ScoredCourse) : Option ScoredCourse :=
  some (match b with
    | none => x
    | some y => if y.score ≥ x.score then y else x)

/-- Facts about the page-body events (pause observation aside) of one page
iteration: the entity-loop events between the page head and the next-page
decision, with the state they leave. -/
def PageMidFacts (cfg : DriverConfig) (st : CrawlSt) (entEvs : List Ev)
    (stM : CrawlSt) : Prop :=
  stM.added = st.added + countAppends entEvs ∧
  noPageEvents entEvs = true ∧
  pauseSitesOk false entEvs = true ∧
  inEAfter false entEvs = false ∧
  (∀ M, cfg.maxCompanies = some M → st.added ≤ M →
    stM.added ≤ M ∧ navGuardCheck M st.added entEvs = true)

/-- C1: for any two non-empty raw names with equal normalized forms,
inserting one through `checkAndAddCompany` makes probing the other (through
`checkCompanyExists` or `checkAndAddCompany`) report a duplicate, in both
directions; and in general, for a non-empty name, `checkAndAddCompany`
returns `true` leaving the set unchanged exactly when the normalized name is
already present, and otherwise appends the normalized name and returns
`false`. -/
theorem c1_dedup_insert_probe (a b : String) (s : List String)
    (ha : a ≠ "") (hb : b ≠ "")
    (hn : normalizeCompanyName a = normalizeCompanyName b) :
    (checkCompanyExists b (checkAndAddCompany a s).2 = true ∧
     (checkAndAddCompany b (checkAndAddCompany a s).2).1 = true ∧
     checkCompanyExists a (checkAndAddCompany b s).2 = true ∧
     (checkAndAddCompany a (checkAndAddCompany b s).2).1 = true) ∧
    (∀ (c : String) (t : List String), c ≠ "" →
      (((checkAndAddCompany c t).1 = true ∧ (checkAndAddCompany c t).2 = t) ↔
        t.contains (normalizeCompanyName c) = true) ∧
      (t.contains (normalizeCompanyName c) = false →
        checkAndAddCompany c t = (false, t ++ [normalizeCompanyName c]))) := by
  have probe : ∀ (x y : String) (u : List String), x ≠ "" → y ≠ "" →
      normalizeCompanyName x = normalizeCompanyName y →
      checkCompanyExists y (checkAndAddCompany x u).2 = true := by
    intro x y u hx hy hxy
    unfold checkCompanyExists checkAndAddCompany setHas setAdd
    rw [if_neg hx, if_neg hy, ← hxy]
    by_cases h : u.contains (normalizeCompanyName x) = true
    · rw [if_pos h]
      exact h
    · rw [if_neg h, if_neg h]
      simp [List.contains]
  have add_probe : ∀ (x y : String) (u : List String), x ≠ "" → y ≠ "" →
      normalizeCompanyName x = normalizeCompanyName y →
      (checkAndAddCompany y (checkAndAddCompany x u).2).1 = true := by
    intro x y u hx hy hxy
    rcases hcu : checkAndAddCompany x u with ⟨flag, u2⟩
    have hc : u2.contains (normalizeCompanyName y) = true := by
      have hp := probe x y u hx hy hxy
      unfold checkCompanyExists setHas at hp
      rw [if_neg hy, hcu] at hp
      exact hp
    show (checkAndAddCompany y u2).1 = true
    unfold checkAndAddCompany
    rw [if_neg hy]
    simp at hc
    simp [hc]
  refine ⟨⟨probe a b s ha hb hn, add_probe a b s ha hb hn,
      probe b a s hb ha hn.symm, add_probe b a s hb ha hn.symm⟩, ?_⟩
  intro c t hc
  unfold checkAndAddCompany setAdd
  rw [if_neg hc]
  by_cases h : t.contains (normalizeCompanyName c) = true
  · simp at h
    simp [h]
  · simp only [Bool.not_eq_true] at h
    simp at h
    simp [h]

/-- Witness for `c1_dedup_insert_probe` at the names `"Acme PICK UP"` and
`" Acme "`, which normalize to the same key. -/
theorem c1_dedup_insert_probe_witness :
    ("Acme PICK UP" ≠ "" ∧ " Acme " ≠ "" ∧
      normalizeCompanyName "Acme PICK UP" = normalizeCompanyName " Acme ") ∧
    checkCompanyExists " Acme " (checkAndAddCompany "Acme PICK UP" []).2 = true :=
  ⟨⟨by decide, by decide, by decide⟩,
    (c1_dedup_insert_probe "Acme PICK UP" " Acme " [] (by decide) (by decide)
      (by decide)).1.1⟩

/-- C9 counterexample: on the save-if-new persist path the empty raw company
name is not protected.  Saving a record whose company name is empty on an
empty dedup set inserts the empty normalized identity into the set; and with
the empty identity already present, the same save reports a duplicate and
persists nothing (so no record is persisted under any fallback label),
contradicting the claim that the empty name is never inserted and never
reported as a duplicate on every persist path. -/
theorem c9_empty_name_counterexample :
    (saveRecordIfNew ⟨"", "p", "e", "i", "h", "u", "j", "a", "s"⟩ []).2.1.contains "" = true ∧
    (saveRecordIfNew ⟨"", "p", "e", "i", "h", "u", "j", "a", "s"⟩ [""]).1 = true ∧
    (saveRecordIfNew ⟨"", "p", "e", "i", "h", "u", "j", "a", "s"⟩ [""]).2.2 = [] := by
  decide

/-- C9 (amended): the empty raw company name is never inserted and never
reported as a duplicate by the existence probe and the check-and-insert
guard (both return `false` and leave the set unchanged); the save-if-new
path, however, has no empty-name guard: a record carrying an empty name
inserts the empty normalized identity and is persisted with its empty name
as is when the empty identity is absent, and is reported as a duplicate and
not persisted when it is present (the fallback label for empty names is
applied upstream, at record construction, not on the persist path). -/
theorem c9_empty_name_dedup (s : List String) (record : CsvRecord)
    (h : record.companyName = "") :
    checkCompanyExists "" s = false ∧
    checkAndAddCompany "" s = (false, s) ∧
    (s.contains "" = false →
      saveRecordIfNew record s = (false, s ++ [""], [record])) ∧
    (s.contains "" = true →
      saveRecordIfNew record s = (true, s, [])) := by
  have hnorm : normalizeCompanyName record.companyName = "" := by
    rw [h]
    decide
  refine ⟨rfl, rfl, ?_, ?_⟩
  · intro hs
    simp at hs
    unfold saveRecordIfNew setAdd
    rw [hnorm]
    simp [hs]
  · intro hs
    simp at hs
    unfold saveRecordIfNew
    rw [hnorm]
    simp [hs]

/-- Witness for `c9_empty_name_dedup` at a concrete empty-named record and
the empty set. -/
theorem c9_empty_name_dedup_witness :
    ((⟨"", "p", "e", "i", "h", "u", "j", "a", "s"⟩ : CsvRecord).companyName = "" ∧
      ([] : List String).contains "" = false) ∧
    saveRecordIfNew ⟨"", "p", "e", "i", "h", "u", "j", "a", "s"⟩ [] =
      (false, [""], [⟨"", "p", "e", "i", "h", "u", "j", "a", "s"⟩]) :=
  ⟨⟨rfl, by decide⟩,
    (c9_empty_name_dedup [] ⟨"", "p", "e", "i", "h", "u", "j", "a", "s"⟩ rfl).2.2.1
      (by decide)⟩

/-- C5: when the persisted session state is accepted by the protected
CSV-export request, the flow is exactly that one successful attempt, with no
interactive capture; when the state is rejected or none is saved, exactly
one interactive capture runs, the freshly captured state is persisted before
the single retried request (the trace ends with capture, persist, retry),
and the retry's outcome — including failure — is the flow's outcome, so a
failing retry propagates instead of looping or re-capturing. -/
theorem c5_session_capture_once {σ γ : Type} (saved : Option σ)
    (download : σ → Except String γ) (captured : σ) :
    (∀ state csv, saved = some state → download state = Except.ok csv →
      ensureSessionAndDownload saved download captured =
        ([SessionEv.downloadAttempt state], Except.ok csv)) ∧
    ((saved = none ∨ ∃ state e, saved = some state ∧ download state = Except.error e) →
      countCaptures (ensureSessionAndDownload saved download captured).1 = 1 ∧
      (∃ pre, (ensureSessionAndDownload saved download captured).1 =
        pre ++ [SessionEv.captureFlow, SessionEv.persistState captured,
          SessionEv.downloadAttempt captured]) ∧
      (ensureSessionAndDownload saved download captured).2 = download captured) := by
  constructor
  · intro state csv hs hd
    subst hs
    simp only [ensureSessionAndDownload, hd]
  · intro h
    rcases h with h | ⟨state, e, hs, hd⟩
    · subst h
      refine ⟨rfl, ⟨[], rfl⟩, rfl⟩
    · subst hs
      refine ⟨?_, ⟨[SessionEv.downloadAttempt state], ?_⟩, ?_⟩ <;>
        simp only [ensureSessionAndDownload, hd] <;> rfl

/-- Witness for `c5_session_capture_once`: a rejected saved state leads to
one capture, persist-before-retry, and the retry's error propagating. -/
theorem c5_session_capture_once_witness :
    ((some 0 : Option Nat) = none ∨
      ∃ state e, (some 0 : Option Nat) = some state ∧
        (fun _ : Nat => (Except.error "rejected" : Except String Nat)) state =
          Except.error e) ∧
    countCaptures (ensureSessionAndDownload (some 0)
      (fun _ : Nat => (Except.error "rejected" : Except String Nat)) 1).1 = 1 ∧
    (∃ pre, (ensureSessionAndDownload (some 0)
        (fun _ : Nat => (Except.error "rejected" : Except String Nat)) 1).1 =
      pre ++ [SessionEv.captureFlow, SessionEv.persistState 1,
        SessionEv.downloadAttempt 1]) ∧
    (ensureSessionAndDownload (some 0)
      (fun _ : Nat => (Except.error "rejected" : Except String Nat)) 1).2 =
      (fun _ : Nat => (Except.error "rejected" : Except String Nat)) 1 :=
  ⟨Or.inr ⟨0, "rejected", rfl, rfl⟩,
    (c5_session_capture_once (some 0)
      (fun _ : Nat => (Except.error "rejected" : Except String Nat)) 1).2
      (Or.inr ⟨0, "rejected", rfl, rfl⟩)⟩

/-- C6: for every record, relay configuration and fetch outcome, the CSV
contents after `appendCsvRecord` are the old contents plus the serialized
line — the local append happens first (it is the first observable action)
and no relay failure rolls it back or escapes the routine; every relay
failure (timeout, network error, non-2xx response) is caught and logged
as the final event; and an abort, a network error, and a non-2xx response
all make `postRowToGas` fail. -/
theorem c6_relay_failures_contained (record : CsvRecord) (listSource : String)
    (gasConfig : Option GasConfig) (outcome : FetchOutcome) (csv : List String) :
    ((appendCsvRecord record listSource gasConfig outcome csv).1 =
      csv ++ [csvLine record listSource] ∧
    (appendCsvRecord record listSource gasConfig outcome csv).2.head? =
      some (PersistEv.csvAppend (csvLine record listSource)) ∧
    (∀ gas message, gasConfig = some gas →
      postRowToGas gas (recordRow record listSource) outcome = Except.error message →
      (appendCsvRecord record listSource gasConfig outcome csv).2 =
        [PersistEv.csvAppend (csvLine record listSource),
         PersistEv.gasRequest (mkGasRequest gas (recordRow record listSource)),
         PersistEv.gasErrorLogged message])) ∧
    ((∀ gas row, ∃ m, postRowToGas gas row FetchOutcome.aborted = Except.error m) ∧
    (∀ gas row msg, postRowToGas gas row (FetchOutcome.netError msg) = Except.error msg) ∧
    (∀ gas row status stext body, statusOk status = false →
      ∃ m, postRowToGas gas row (FetchOutcome.response status stext body) =
        Except.error m)) := by
  refine ⟨?_, ⟨fun gas row => ⟨_, rfl⟩, fun gas row msg => rfl, ?_⟩⟩
  · rcases gasConfig with _ | gas
    · refine ⟨rfl, rfl, ?_⟩
      intro gas message h
      simp at h
    · rcases hp : postRowToGas gas (recordRow record listSource) outcome with m | text
      · refine ⟨?_, ?_, ?_⟩
        · simp only [appendCsvRecord, hp]
        · simp only [appendCsvRecord, hp]
          rfl
        · intro gas2 message h hmsg
          cases h
          rw [hp] at hmsg
          cases hmsg
          simp only [appendCsvRecord, hp]
      · refine ⟨?_, ?_, ?_⟩
        · simp only [appendCsvRecord, hp]
        · simp only [appendCsvRecord, hp]
          rfl
        · intro gas2 message h hmsg
          cases h
          rw [hp] at hmsg
          simp at hmsg
  · intro gas row status stext body h
    exact ⟨"GAS への行アップロードに失敗しました: " ++ toString status ++ " " ++ stext
      ++ "\n" ++ body, by simp [postRowToGas, h]⟩

/-- Witness for `c6_relay_failures_contained`: a timed-out relay call is
caught and logged after the CSV append, at a concrete record. -/
theorem c6_relay_failures_contained_witness :
    ((some (⟨"url", some "tok"⟩ : GasConfig) = some ⟨"url", some "tok"⟩) ∧
      postRowToGas ⟨"url", some "tok"⟩
        (recordRow ⟨"A", "p", "e", "i", "h", "u", "j", "a", "s"⟩ "LS")
        FetchOutcome.aborted =
        Except.error "GAS への行アップロードがタイムアウトしました（10 秒経過）") ∧
    (appendCsvRecord ⟨"A", "p", "e", "i", "h", "u", "j", "a", "s"⟩ "LS"
        (some ⟨"url", some "tok"⟩) FetchOutcome.aborted []).2 =
      [PersistEv.csvAppend (csvLine ⟨"A", "p", "e", "i", "h", "u", "j", "a", "s"⟩ "LS"),
       PersistEv.gasRequest (mkGasRequest ⟨"url", some "tok"⟩
         (recordRow ⟨"A", "p", "e", "i", "h", "u", "j", "a", "s"⟩ "LS")),
       PersistEv.gasErrorLogged "GAS への行アップロードがタイムアウトしました（10 秒経過）"] :=
  ⟨⟨rfl, rfl⟩,
    (c6_relay_failures_contained ⟨"A", "p", "e", "i", "h", "u", "j", "a", "s"⟩ "LS"
      (some ⟨"url", some "tok"⟩) FetchOutcome.aborted []).1.2.2
      ⟨"url", some "tok"⟩ "GAS への行アップロードがタイムアウトしました（10 秒経過）" rfl rfl⟩

/-- C8 counterexample: a configuration file without a `SEARCH_URL` does not
make startup fail — `loadConfig`'s own catch swallows the validation error
and returns the built-in default configuration (discarding even the other
fields that were present), and the run proceeds with the default search
URL.  The same happens when the file cannot be read or parsed at all. -/
theorem c8_missing_search_url_counterexample :
    loadConfig (some ⟨none, some 3, some 5, some "sheetUrl", some "out.csv",
      some "gasUrl", some "tok"⟩) none = defaultConfig ∧
    loadConfig none none = defaultConfig ∧
    defaultConfig.SEARCH_URL ≠ "" := by
  refine ⟨rfl, rfl, by decide⟩

/-- C8 (amended): a missing (or empty, or non-string) `SEARCH_URL` is not a
fatal startup error: `loadConfig` falls back to the built-in default
configuration, logging a warning, and likewise when the configuration file
cannot be read or parsed; missing optional fields merely disable features —
an unset `GAS_UPLOAD_URL` disables the relay, and an unset `SPREADSHEET_URL`
or `CSV_PATH` skips the spreadsheet sync — while a fully configured relay
and sync are enabled, and whenever the sync actually runs `getSheetConfig`
succeeds, so its missing-required-field errors are unreachable. -/
theorem c8_config_fallback_not_fatal (raw : Option RawConfig) (env : Option Int) :
    (∀ parsed, raw = some parsed →
      (parsed.SEARCH_URL = none ∨ parsed.SEARCH_URL = some "") →
      loadConfig raw env = defaultConfig) ∧
    (raw = none → loadConfig raw env = defaultConfig) ∧
    (∀ config : MynaviConfig, optBlank config.GAS_UPLOAD_URL = true →
      getGasConfig config = none) ∧
    (∀ config : MynaviConfig,
      (optBlank config.SPREADSHEET_URL || optBlank config.CSV_PATH) = true →
      sheetSyncRuns config = false) ∧
    (∀ config : MynaviConfig, optBlank config.GAS_UPLOAD_URL = false →
      getGasConfig config =
        some ⟨config.GAS_UPLOAD_URL.getD "", config.GAS_UPLOAD_TOKEN⟩) ∧
    (∀ config : MynaviConfig, sheetSyncRuns config = true →
      getSheetConfig config =
        Except.ok (config.SPREADSHEET_URL.getD "", config.CSV_PATH.getD "")) := by
  refine ⟨?_, ?_, ?_, ?_, ?_, ?_⟩
  · intro parsed hr hu
    subst hr
    rcases hu with hu | hu <;> simp [loadConfig, hu]
  · intro hr
    subst hr
    rfl
  · intro config h
    simp [getGasConfig, h]
  · intro config h
    unfold sheetSyncRuns
    rw [h]
    rfl
  · intro config h
    simp [getGasConfig, h]
  · intro config h
    unfold sheetSyncRuns at h
    simp only [Bool.not_eq_true', Bool.or_eq_false_iff] at h
    unfold getSheetConfig
    rw [h.1, h.2]
    rfl

/-- Witness for `c8_config_fallback_not_fatal`: a file with `SEARCH_URL`
absent yields the default configuration, and a configuration with only the
relay URL set enables the relay while skipping the sync. -/
theorem c8_config_fallback_not_fatal_witness :
    ((some (⟨none, none, none, none, none, none, none⟩ : RawConfig) =
        some ⟨none, none, none, none, none, none, none⟩) ∧
      ((⟨none, none, none, none, none, none, none⟩ : RawConfig).SEARCH_URL = none ∨
        (⟨none, none, none, none, none, none, none⟩ : RawConfig).SEARCH_URL = some "")) ∧
    loadConfig (some ⟨none, none, none, none, none, none, none⟩) none = defaultConfig :=
  ⟨⟨rfl, Or.inl rfl⟩,
    (c8_config_fallback_not_fatal (some ⟨none, none, none, none, none, none, none⟩)
      none).1 ⟨none, none, none, none, none, none, none⟩ rfl (Or.inl rfl)⟩

/-- Inserting into the stable descending sort changes the head as
`chooseScored` describes. -/
theorem head_insertScoredDesc (s : List ScoredCourse) (x : ScoredCourse) :
    (insertScoredDesc s x).head? = chooseScored s.head? x := by
  cases s with
  | nil => rfl
  | cons y ys =>
    unfold insertScoredDesc chooseScored
    by_cases h : y.score ≥ x.score
    · rw [if_pos h]
      simp [h]
    · rw [if_neg h]
      simp [h]

/-- The head of the insertion fold is the `chooseScored` fold of the heads. -/
theorem head_foldl_insertScoredDesc (l : List ScoredCourse) :
    ∀ acc : List ScoredCourse,
      (l.foldl insertScoredDesc acc).head? = l.foldl chooseScored acc.head? := by
  induction l with
  | nil => intro acc; rfl
  | cons x l ih =>
    intro acc
    simp only [List.foldl_cons]
    rw [ih, head_insertScoredDesc]

/-- The `chooseScored` fold computes the first element of maximal score. -/
theorem foldl_chooseScored_firstMax (l : List ScoredCourse) :
    ∀ b : Option ScoredCourse,
      l.foldl chooseScored b =
        match b, firstMaxScored l with
        | none, r => r
        | some y, none => some y
        | some y, some z => some (if z.score > y.score then z else y) := by
  induction l with
  | nil =>
    intro b
    cases b <;> rfl
  | cons x l ih =>
    intro b
    simp only [List.foldl_cons, firstMaxScored]
    cases b with
    | none =>
      rw [ih]
      clear ih
      rcases hm : firstMaxScored l with _ | z
      · simp [chooseScored, hm]
      · simp only [chooseScored, hm]
        by_cases h2 : z.score > x.score <;> simp [h2] <;>
          first | omega | rw [if_neg (by omega)] | rw [if_pos (by omega)]
    | some y =>
      rw [ih]
      clear ih
      rcases hm : firstMaxScored l with _ | z
      · simp only [chooseScored, hm]
        by_cases h1 : y.score ≥ x.score <;> by_cases h2 : x.score > y.score <;>
          simp [h1, h2] <;>
          first | omega | rw [if_neg (by omega)] | rw [if_pos (by omega)]
      · simp only [chooseScored, hm]
        by_cases h1 : y.score ≥ x.score <;> by_cases h2 : z.score > x.score <;>
          by_cases h3 : z.score > y.score <;> simp [h1, h2, h3] <;>
          first | omega | rw [if_neg (by omega)] | rw [if_pos (by omega)]

/-- The head of the stable descending sort is the first element of maximal
score in encounter order. -/
theorem sortScoredDesc_head (l : List ScoredCourse) :
    (sortScoredDesc l).head? = firstMaxScored l := by
  unfold sortScoredDesc
  rw [head_foldl_insertScoredDesc, foldl_chooseScored_firstMax]
  simp only [List.head?_nil]

/-- The course loop fetches sub-pages in order and stops at the first
course carrying both a phone and an email, collecting the earlier
incomplete courses before it and nothing after it. -/
theorem courseLoop_early_exit (pause : Nat → Bool) (finalName url : String)
    (d : CourseData) (hd : d.phones ≠ [] ∧ d.emails ≠ []) :
    ∀ (pre : List (String × Option CourseData)) (post : List (String × Option CourseData))
      (st : CrawlSt),
      (∀ x ∈ pre, ∀ cd, x.2 = some cd → (cd.phones = [] ∨ cd.emails = [])) →
      fetchedUrls (courseLoop ⟨none, pause⟩ finalName (pre ++ (url, some d) :: post) st).1 =
        pre.map Prod.fst ++ [url] ∧
      (courseLoop ⟨none, pause⟩ finalName (pre ++ (url, some d) :: post) st).2.1 =
        (pre.filterMap fun x => x.2.map fun cd => { cd with companyName := finalName }) ++
          [{ d with companyName := finalName }] := by
  intro pre
  induction pre with
  | nil =>
    intro post st _
    have hcomp : (!d.phones.isEmpty && !d.emails.isEmpty) = true := by
      rcases hd with ⟨h1, h2⟩
      simp [List.isEmpty_iff, h1, h2]
    simp only [List.nil_append, courseLoop, stopVal, hcomp]
    simp [fetchedUrls]
  | cons x pre ih =>
    intro post st hpre
    rcases x with ⟨xu, xres⟩
    have hps : ∀ y ∈ pre, ∀ cd, y.2 = some cd → (cd.phones = [] ∨ cd.emails = []) := by
      intro y hy
      exact hpre y (List.mem_cons_of_mem _ hy)
    rcases ih post (bumpPc (bumpSc st)) hps with ⟨ih1, ih2⟩
    rcases xres with _ | cd
    · simp only [List.cons_append, courseLoop, stopVal]
      rcases hrec : courseLoop ⟨none, pause⟩ finalName
        (pre ++ (url, some d) :: post) (bumpPc (bumpSc st)) with ⟨evs, courses, st2⟩
      rw [hrec] at ih1 ih2
      simp only [fetchedUrls] at ih1 ⊢
      refine ⟨by simp [ih1], ?_⟩
      simpa using ih2
    · have hincomp : (!cd.phones.isEmpty && !cd.emails.isEmpty) = false := by
        rcases hpre (xu, some cd) (List.mem_cons_self _ _) cd rfl with h | h <;>
          simp [h, List.isEmpty_iff]
      simp only [List.cons_append, courseLoop, stopVal, hincomp]
      rcases hrec : courseLoop ⟨none, pause⟩ finalName
        (pre ++ (url, some d) :: post) (bumpPc (bumpSc st)) with ⟨evs, courses, st2⟩
      rw [hrec] at ih1 ih2
      simp only [fetchedUrls] at ih1 ⊢
      refine ⟨by simp [ih1], ?_⟩
      simp only [List.filterMap_cons]
      simpa using ih2

/-- C2: each course candidate is scored 3 with both phone and email, 2 with
phone only, 1 with email only, 0 otherwise; the candidate the persisted
record is built from — the head of the stable descending sort — is the
first candidate of maximal score in encounter order; and the enumeration of
course sub-pages stops as soon as a candidate with both phone and email is
found, fetching exactly the sub-pages up to and including it and none after
it. -/
theorem c2_scoring_selection_early_exit :
    (∀ c : CourseData,
      (c.phones ≠ [] → c.emails ≠ [] → (scoreCourse c).score = 3) ∧
      (c.phones ≠ [] → c.emails = [] → (scoreCourse c).score = 2) ∧
      (c.phones = [] → c.emails ≠ [] → (scoreCourse c).score = 1) ∧
      (c.phones = [] → c.emails = [] → (scoreCourse c).score = 0)) ∧
    (∀ l : List CourseData, bestCourseOf l = firstMaxScored (scoreCourses l)) ∧
    (∀ (pause : Nat → Bool) (finalName url : String) (d : CourseData)
      (pre post : List (String × Option CourseData)) (st : CrawlSt),
      d.phones ≠ [] → d.emails ≠ [] →
      (∀ x ∈ pre, ∀ cd, x.2 = some cd → (cd.phones = [] ∨ cd.emails = [])) →
      fetchedUrls (courseLoop ⟨none, pause⟩ finalName (pre ++ (url, some d) :: post) st).1 =
        pre.map Prod.fst ++ [url] ∧
      (courseLoop ⟨none, pause⟩ finalName (pre ++ (url, some d) :: post) st).2.1 =
        (pre.filterMap fun x => x.2.map fun cd => { cd with companyName := finalName }) ++
          [{ d with companyName := finalName }]) := by
  refine ⟨?_, ?_, ?_⟩
  · intro c
    rcases hp : c.phones with _ | ⟨p, ps⟩ <;> rcases he : c.emails with _ | ⟨e, es⟩ <;>
      refine ⟨?_, ?_, ?_, ?_⟩ <;> intro h1 h2 <;> simp_all [scoreCourse]
  · intro l
    unfold bestCourseOf
    exact sortScoredDesc_head (scoreCourses l)
  · intro pause finalName url d pre post st h1 h2 hpre
    exact courseLoop_early_exit pause finalName url d ⟨h1, h2⟩ pre post st hpre

/-- Witness for `c2_scoring_selection_early_exit` at the spec's example: the
candidates carry (phone, email) presence scores (0, 2, 3, 1) in encounter
order, selection picks the score-3 candidate at position 2, and enumeration
fetches exactly the first three sub-pages. -/
theorem c2_scoring_selection_early_exit_witness :
    ((⟨"n", [], ["p"], ["e"], "u2"⟩ : CourseData).phones ≠ [] ∧
      (⟨"n", [], ["p"], ["e"], "u2"⟩ : CourseData).emails ≠ []) ∧
    fetchedUrls (courseLoop ⟨none, fun _ => false⟩ "ACME"
      ([("l0", some ⟨"n", [], [], [], "u0"⟩), ("l1", some ⟨"n", [], ["p"], [], "u1"⟩)] ++
        ("l2", some ⟨"n", [], ["p"], ["e"], "u2"⟩) ::
          [("l3", some ⟨"n", [], [], ["e"], "u3"⟩)]) ⟨[], 0, 0, 0⟩).1 =
      ["l0", "l1", "l2"] ∧
    bestCourseOf [⟨"n", [], [], [], "u0"⟩, ⟨"n", [], ["p"], [], "u1"⟩,
      ⟨"n", [], ["p"], ["e"], "u2"⟩, ⟨"n", [], [], ["e"], "u3"⟩] =
      some (scoreCourse ⟨"n", [], ["p"], ["e"], "u2"⟩) :=
  ⟨⟨by decide, by decide⟩,
    (c2_scoring_selection_early_exit.2.2 (fun _ => false) "ACME" "l2"
      ⟨"n", [], ["p"], ["e"], "u2"⟩
      [("l0", some ⟨"n", [], [], [], "u0"⟩), ("l1", some ⟨"n", [], ["p"], [], "u1"⟩)]
      [("l3", some ⟨"n", [], [], ["e"], "u3"⟩)] ⟨[], 0, 0, 0⟩
      (by decide) (by decide) (by decide)).1,
   by decide⟩

/-- Consuming an escaped field body inside quotes: parsing the escaped
characters of `f` followed by the closing quote, from the in-quotes state,
accumulates exactly `f` onto the current field and leaves the quoted state
(provided no further quote immediately follows the closing one). -/
theorem parseCsvAux_escaped (f : List Char) :
    ∀ (acc : List Char) (row : List (List Char)) (rows : List (List (List Char)))
      (rest : List Char), rest.head? ≠ some '"' →
      parseCsvAux true acc row rows (escapeCsvChars f ++ '"' :: rest) =
        parseCsvAux false (acc ++ f) row rows rest := by
  induction f with
  | nil =>
    intro acc row rows rest hrest
    simp only [escapeCsvChars, List.flatMap_nil, List.nil_append, List.append_nil]
    rw [parseCsvAux]
    simp [hrest]
  | cons c f ih =>
    intro acc row rows rest hrest
    by_cases hc : c = '"'
    · subst hc
      have he : escapeCsvChars ('"' :: f) = '"' :: '"' :: escapeCsvChars f := rfl
      rw [he]
      simp only [List.cons_append]
      rw [parseCsvAux]
      simp only [List.head?_cons, List.tail_cons, if_pos rfl, if_true]
      rw [ih _ _ _ _ hrest]
      simp
    · have he : escapeCsvChars (c :: f) = c :: escapeCsvChars f := by
        simp [escapeCsvChars, hc]
      rw [he]
      simp only [List.cons_append]
      rw [parseCsvAux]
      simp only [if_neg hc, Bool.true_eq_false, and_false, if_false]
      rw [ih _ _ _ _ hrest]
      simp

/-- Consuming one whole serialized field from the out-of-quotes state
accumulates exactly its value. -/
theorem parseCsvAux_field (f : List Char) (row : List (List Char))
    (rows : List (List (List Char))) (rest : List Char) (hrest : rest.head? ≠ some '"') :
    parseCsvAux false [] row rows (quoteField f ++ rest) =
      parseCsvAux false f row rows rest := by
  unfold quoteField
  simp only [List.cons_append, List.append_assoc, List.singleton_append]
  rw [parseCsvAux]
  simp only [if_pos rfl, Bool.false_eq_true, if_false, if_true, List.nil_append]
  rw [parseCsvAux_escaped f [] row rows rest hrest]
  simp

/-- Consuming one whole serialized line appends exactly its fields as one
row (kept when some field is non-blank). -/
theorem parseCsvAux_line (fields : List (List Char)) (hne : fields ≠ []) :
    ∀ (row : List (List Char)) (rows : List (List (List Char))),
      parseCsvAux false [] row rows (List.intercalate [','] (fields.map quoteField) ++ ['\n']) =
        (if someNonBlank (row ++ fields) then rows ++ [row ++ fields] else rows) := by
  induction fields with
  | nil => exact absurd rfl hne
  | cons f fs ih =>
    intro row rows
    cases fs with
    | nil =>
      simp only [List.map_cons, List.map_nil, List.intercalate]
      simp only [List.intersperse_singleton, List.flatten]
      rw [List.append_nil]
      rw [parseCsvAux_field f row rows ['\n'] (by simp)]
      rw [parseCsvAux]
      simp
      rw [parseCsvAux]
      simp
    | cons g gs =>
      have hint : List.intercalate [','] ((f :: g :: gs).map quoteField) =
          quoteField f ++ [','] ++ List.intercalate [','] ((g :: gs).map quoteField) := by
        simp [List.intercalate, List.intersperse]
      rw [hint]
      simp only [List.append_assoc, List.cons_append, List.nil_append]
      rw [parseCsvAux_field f row rows _ (by
        cases hq : (List.intercalate [','] ((g :: gs).map quoteField) ++ ['\n']) <;> simp)]
      rw [parseCsvAux]
      rw [if_neg (by decide : ¬(',' : Char) = '"')]
      rw [if_pos (⟨rfl, rfl⟩ : (',' : Char) = ',' ∧ false = false)]
      rw [ih (by simp) (row ++ [f]) rows]
      simp

/-- Parsing one serialized row with at least one non-blank field yields
exactly that row. -/
theorem parseCsv_serializeRow_chars (fields : List (List Char)) (hne : fields ≠ [])
    (hnb : someNonBlank fields = true) :
    parseCsvAux false [] [] [] (serializeRowChars fields) = [fields] := by
  unfold serializeRowChars
  rw [parseCsvAux_line fields hne [] []]
  simp [hnb]

/-- C10: for every record whose serialized ledger row has at least one
non-blank field, parsing the line written by the record serializer (every
field quoted, embedded quotes doubled) with the quote-aware CSV parser
yields exactly one row whose fields equal the original field values —
commas, embedded quotes and newlines included — so identities seeded from
the file on the next run match the identities written in this run. -/
theorem c10_csv_roundtrip (record : CsvRecord) (listSource : String)
    (h : ∃ f ∈ recordRow record listSource, jsTrim f ≠ "") :
    parseCsvContent (csvLine record listSource) = [recordRow record listSource] := by
  have hdata : (csvLine record listSource).data =
      serializeRowChars ((recordRow record listSource).map String.data) := rfl
  have hne : (recordRow record listSource).map String.data ≠ [] := by
    simp [recordRow]
  have hnb : someNonBlank ((recordRow record listSource).map String.data) = true := by
    rcases h with ⟨f, hf, hnf⟩
    unfold someNonBlank
    rw [List.any_eq_true]
    refine ⟨f.data, List.mem_map_of_mem _ hf, ?_⟩
    have hnil : jsTrimChars f.data ≠ [] := by
      intro hcontra
      apply hnf
      unfold jsTrim
      rw [hcontra]
    simpa using hnil
  unfold parseCsvContent
  rw [hdata, parseCsv_serializeRow_chars _ hne hnb]
  simp only [List.map_cons, List.map_nil, List.map_map]
  have hfun : (String.mk ∘ String.data) = id := funext fun s => rfl
  rw [hfun, List.map_id]

/-- Witness for `c10_csv_roundtrip` at a record containing commas, embedded
double quotes and a newline in its fields. -/
theorem c10_csv_roundtrip_witness :
    (∃ f ∈ recordRow ⟨"A,\"B\"\nC", "03-1,234", "a@b.c", "i\"i", "h", "u", "j", "a", "s"⟩
        "LS", jsTrim f ≠ "") ∧
    parseCsvContent (csvLine ⟨"A,\"B\"\nC", "03-1,234", "a@b.c", "i\"i", "h", "u", "j", "a", "s"⟩
        "LS") =
      [recordRow ⟨"A,\"B\"\nC", "03-1,234", "a@b.c", "i\"i", "h", "u", "j", "a", "s"⟩ "LS"] :=
  ⟨by decide,
    c10_csv_roundtrip ⟨"A,\"B\"\nC", "03-1,234", "a@b.c", "i\"i", "h", "u", "j", "a", "s"⟩
      "LS" (by decide)⟩

theorem countAppends_append (a b : List Ev) :
    countAppends (a ++ b) = countAppends a + countAppends b := by
  induction a with
  | nil => simp [countAppends]
  | cons e t ih =>
    cases e <;> simp [countAppends, ih] <;> omega

theorem navGuardCheck_append (m : Nat) (a b : List Ev) :
    ∀ c, navGuardCheck m c (a ++ b) =
      (navGuardCheck m c a && navGuardCheck m (c + countAppends a) b) := by
  induction a with
  | nil => intro c; simp [navGuardCheck, countAppends]
  | cons e t ih =>
    intro c
    cases e <;>
      simp [navGuardCheck, countAppends, ih, Bool.and_assoc, Nat.add_right_comm] <;>
      rw [show c + countAppends t + 1 = c + (countAppends t + 1) by omega]

theorem inEAfter_append (a b : List Ev) :
    ∀ f, inEAfter f (a ++ b) = inEAfter (inEAfter f a) b := by
  induction a with
  | nil => intro f; rfl
  | cons e t ih => intro f; cases e <;> simp [inEAfter, ih]

theorem pauseSitesOk_append (a b : List Ev) :
    ∀ f, pauseSitesOk f (a ++ b) =
      (pauseSitesOk f a && pauseSitesOk (inEAfter f a) b) := by
  induction a with
  | nil => intro f; rfl
  | cons e t ih =>
    intro f
    cases e <;> simp [pauseSitesOk, inEAfter, ih, Bool.and_assoc]

theorem visitsOkFrom_append_noVisit (a b : List Ev) (ha : noPageEvents a = true) :
    ∀ k, visitsOkFrom k (a ++ b) = visitsOkFrom k b := by
  induction a with
  | nil => intro k; rfl
  | cons e t ih =>
    intro k
    simp only [noPageEvents, List.all_cons, Bool.and_eq_true] at ha
    cases e <;> simp_all [visitsOkFrom, noPageEvents]

theorem lastVisit_append (a b : List Ev) :
    lastVisit (a ++ b) = match lastVisit b with
      | some v => some v
      | none => lastVisit a := by
  induction a with
  | nil => cases h : lastVisit b <;> simp [lastVisit, h]
  | cons e t ih =>
    cases e <;> simp only [List.cons_append, lastVisit] <;>
      rw [show t.append b = t ++ b from rfl, ih] <;>
      cases h : lastVisit b <;> simp [h]

theorem pageNavEvents_append (a b : List Ev) :
    pageNavEvents (a ++ b) = pageNavEvents a ++ pageNavEvents b := by
  simp [pageNavEvents]

theorem courseLoop_facts (sched : Sched) (fn : String) :
    ∀ (links : List (String × Option CourseData)) (st : CrawlSt),
      countAppends (courseLoop sched fn links st).1 = 0 ∧
      noNavStart (courseLoop sched fn links st).1 = true ∧
      noPageEvents (courseLoop sched fn links st).1 = true ∧
      pauseSitesOk true (courseLoop sched fn links st).1 = true ∧
      inEAfter true (courseLoop sched fn links st).1 = true ∧
      ((courseLoop sched fn links st).2.2).added = st.added := by
  intro links
  induction links with
  | nil =>
    intro st
    simp [courseLoop, countAppends, noNavStart, noPageEvents, pauseSitesOk, inEAfter]
  | cons x rest ih =>
    intro st
    rcases x with ⟨url, result⟩
    by_cases hs : stopVal sched st.sc = true
    · simp [courseLoop, hs, countAppends, noNavStart, noPageEvents, pauseSitesOk, inEAfter,
        bumpSc]
    · rw [Bool.not_eq_true] at hs
      rcases result with _ | data
      · rcases hrec : courseLoop sched fn rest (bumpPc (bumpSc st)) with ⟨evs, courses, st2⟩
        have := ih (bumpPc (bumpSc st))
        rw [hrec] at this
        simp only [courseLoop, hs, Bool.false_eq_true, if_false, hrec]
        simp only [countAppends_append, noNavStart, noPageEvents, List.all_append,
          pauseSitesOk_append, inEAfter_append] at this ⊢
        simp_all [countAppends, pauseSitesOk, inEAfter, noNavStart, noPageEvents, bumpSc, bumpPc]
      · by_cases hc : (!data.phones.isEmpty && !data.emails.isEmpty) = true
        · simp only [courseLoop, hs, Bool.false_eq_true, if_false, hc, if_true]
          simp [countAppends, pauseSitesOk, inEAfter, noNavStart, noPageEvents, bumpSc, bumpPc]
        · rw [Bool.not_eq_true] at hc
          rcases hrec : courseLoop sched fn rest (bumpPc (bumpSc st)) with ⟨evs, courses, st2⟩
          have := ih (bumpPc (bumpSc st))
          rw [hrec] at this
          simp only [courseLoop, hs, Bool.false_eq_true, if_false, hc, hrec]
          simp only [countAppends_append, noNavStart, noPageEvents, List.all_append,
            pauseSitesOk_append, inEAfter_append] at this ⊢
          simp_all [countAppends, pauseSitesOk, inEAfter, noNavStart, noPageEvents, bumpSc, bumpPc]

theorem noNavStart_navGuard (m : Nat) :
    ∀ (t : List Ev) (c : Nat), noNavStart t = true → navGuardCheck m c t = true := by
  intro t
  induction t with
  | nil => intro c _; rfl
  | cons e t ih =>
    intro c h
    simp only [noNavStart, List.all_cons, Bool.and_eq_true] at h
    cases e <;> simp_all [navGuardCheck, noNavStart]

theorem persistStep_facts (cfg : DriverConfig) (name : String) (record : CsvRecord)
    (st : CrawlSt) :
    (persistStep cfg name record st).2.1.added =
      st.added + countAppends (persistStep cfg name record st).1 ∧
    countAppends (persistStep cfg name record st).1 ≤ 1 ∧
    noNavStart (persistStep cfg name record st).1 = true ∧
    noPageEvents (persistStep cfg name record st).1 = true ∧
    pauseSitesOk true (persistStep cfg name record st).1 = true ∧
    inEAfter true (persistStep cfg name record st).1 = false ∧
    (∀ M, cfg.maxCompanies = some M → st.added < M →
      (((persistStep cfg name record st).2.2 = true) ↔
        (persistStep cfg name record st).2.1.added ≥ M)) ∧
    (∀ m', (persistStep ⟨cfg.startPage, m'⟩ name record st).1 =
        (persistStep cfg name record st).1 ∧
      (persistStep ⟨cfg.startPage, m'⟩ name record st).2.1 =
        (persistStep cfg name record st).2.1) := by
  rcases hsv : saveRecordIfNew record st.existing with ⟨skipped, existing2, persisted⟩
  cases skipped
  · simp only [persistStep, hsv]
    refine ⟨rfl, ?_, ?_, ?_, ?_, ?_, ?_, ?_⟩ <;>
      simp [countAppends, noNavStart, noPageEvents, pauseSitesOk, inEAfter, capReached] <;>
      intro M hM hlt <;> simp [hM] <;> omega
  · simp only [persistStep, hsv]
    refine ⟨rfl, ?_, ?_, ?_, ?_, ?_, ?_, ?_⟩ <;>
      simp [countAppends, noNavStart, noPageEvents, pauseSitesOk, inEAfter, capReached] <;>
      intro M hM hlt <;> simp [hM]

theorem processCompany_cases (cfg : DriverConfig) (sched : Sched) (c : Company)
    (st : CrawlSt) :
    (processCompany cfg sched c st = ([Ev.entityEnd c.name], st, false)) ∨
    (processCompany cfg sched c st =
      ([Ev.entityEnd c.name],
       { st with existing := setAdd st.existing (normalizeCompanyName c.name) }, false)) ∨
    (processCompany cfg sched c st = ([Ev.navStart c.name, Ev.entityEnd c.name], st, false)) ∨
    (∃ record X st1,
      countAppends X = 0 ∧ noNavStart X = true ∧ noPageEvents X = true ∧
      pauseSitesOk true X = true ∧ inEAfter true X = true ∧ st1.added = st.added ∧
      processCompany cfg sched c st =
        (Ev.navStart c.name :: (X ++ (persistStep cfg c.name record st1).1),
         (persistStep cfg c.name record st1).2.1,
         (persistStep cfg c.name record st1).2.2)) := by
  by_cases hn : c.name = ""
  · exact Or.inl (by simp [processCompany, hn])
  · by_cases hex : checkCompanyExists c.name st.existing = true
    · exact Or.inr (Or.inl (by simp [processCompany, hn, hex]))
    · rcases hd : c.detail with _ | meta | ⟨meta, isUrl, links, isTable⟩
      · exact Or.inr (Or.inr (Or.inl (by simp [processCompany, hn, hex, hd])))
      · exact Or.inr (Or.inr (Or.inl (by simp [processCompany, hn, hex, hd])))
      · by_cases hl : links.isEmpty = true
        · rcases hit : isTable with _ | data
          · refine Or.inr (Or.inr (Or.inr
              ⟨mkNoDetailRecord c.name meta isUrl, [], st, ?_⟩))
            refine ⟨rfl, rfl, rfl, rfl, rfl, rfl, ?_⟩
            simp [processCompany, hn, hex, hd, hl, hit]
          · refine Or.inr (Or.inr (Or.inr
              ⟨mkBestRecord c.name meta
                ((sortScoredDesc (scoreCourses [{ data with companyName := c.name }])).headD
                  (scoreCourse { data with companyName := c.name })), [], st, ?_⟩))
            refine ⟨rfl, rfl, rfl, rfl, rfl, rfl, ?_⟩
            simp [processCompany, hn, hex, hd, hl, hit]
        · rcases hcl : courseLoop sched c.name links st with ⟨cevs, courses, st1⟩
          have hcf := courseLoop_facts sched c.name links st
          rw [hcl] at hcf
          obtain ⟨hc1, hc2, hc3, hc4, hc5, hc6⟩ := hcf
          rcases hcs : courses with _ | ⟨c0, cs⟩
          · refine Or.inr (Or.inr (Or.inr
              ⟨mkNoTableRecord c.name meta isUrl, cevs, st1, hc1, hc2, hc3, hc4, hc5, hc6, ?_⟩))
            simp only [processCompany, hn, hex, hd, hl, hcl, hcs, if_false, Bool.false_eq_true,
              if_neg, List.singleton_append]
            simp [hn, hex]
          · refine Or.inr (Or.inr (Or.inr
              ⟨mkBestRecord c.name meta
                ((sortScoredDesc (scoreCourses (c0 :: cs))).headD (scoreCourse c0)),
               cevs, st1, hc1, hc2, hc3, hc4, hc5, hc6, ?_⟩))
            simp only [processCompany, hn, hex, hd, hl, hcl, hcs, if_false, Bool.false_eq_true,
              if_neg, List.singleton_append]
            simp [hn, hex]

theorem processCompany_indep (sp : Nat) (m1 m2 : Option Nat) (sched : Sched) (c : Company)
    (st : CrawlSt) :
    (processCompany ⟨sp, m1⟩ sched c st).1 = (processCompany ⟨sp, m2⟩ sched c st).1 ∧
    (processCompany ⟨sp, m1⟩ sched c st).2.1 = (processCompany ⟨sp, m2⟩ sched c st).2.1 := by
  by_cases hn : c.name = ""
  · simp [processCompany, hn]
  · by_cases hex : checkCompanyExists c.name st.existing = true
    · simp [processCompany, hn, hex]
    · rcases hd : c.detail with _ | meta | ⟨meta, isUrl, links, isTable⟩
      · simp [processCompany, hn, hex, hd]
      · simp [processCompany, hn, hex, hd]
      · by_cases hl : links.isEmpty = true
        · rcases hit : isTable with _ | data <;>
            simp [processCompany, hn, hex, hd, hl, hit, persistStep] <;>
            rcases hsv : saveRecordIfNew _ st.existing with ⟨skipped, ex2, per⟩ <;>
            cases skipped <;> simp
        · rcases hcl : courseLoop sched c.name links st with ⟨cevs, courses, st1⟩
          rcases hcs : courses with _ | ⟨c0, cs⟩ <;>
            simp [processCompany, hn, hex, hd, hl, hcl, hcs, persistStep] <;>
            rcases hsv : saveRecordIfNew _ st1.existing with ⟨skipped, ex2, per⟩ <;>
            cases skipped <;> simp

theorem processCompany_facts (cfg : DriverConfig) (sched : Sched) (c : Company)
    (st : CrawlSt) :
    (processCompany cfg sched c st).2.1.added =
      st.added + countAppends (processCompany cfg sched c st).1 ∧
    countAppends (processCompany cfg sched c st).1 ≤ 1 ∧
    noPageEvents (processCompany cfg sched c st).1 = true ∧
    pauseSitesOk false (processCompany cfg sched c st).1 = true ∧
    inEAfter false (processCompany cfg sched c st).1 = false ∧
    ((processCompany cfg sched c st).1 = [Ev.entityEnd c.name] ∨
      ∃ restE, (processCompany cfg sched c st).1 = Ev.navStart c.name :: restE ∧
        noNavStart restE = true) ∧
    (∀ M, cfg.maxCompanies = some M → st.added < M →
      (((processCompany cfg sched c st).2.2 = true) ↔
        (processCompany cfg sched c st).2.1.added ≥ M)) := by
  rcases processCompany_cases cfg sched c st with h | h | h |
    ⟨record, X, st1, hX1, hX2, hX3, hX4, hX5, hXa, h⟩
  · rw [h]
    simp [countAppends, noPageEvents, pauseSitesOk, inEAfter]
  · rw [h]
    simp [countAppends, noPageEvents, pauseSitesOk, inEAfter]
  · rw [h]
    simp [countAppends, noPageEvents, pauseSitesOk, inEAfter, noNavStart]
  · rw [h]
    have hpf := persistStep_facts cfg c.name record st1
    obtain ⟨h1, h2, h3, h4, h5, h6, h7, _⟩ := hpf
    refine ⟨?_, ?_, ?_, ?_, ?_, ?_, ?_⟩
    · simp only [countAppends, countAppends_append, hX1]
      omega
    · simp only [countAppends, countAppends_append, hX1]
      omega
    · simp only [noPageEvents, List.all_cons, List.all_append] at h3 hX3 ⊢
      simp_all [noPageEvents]
    · simp only [pauseSitesOk, pauseSitesOk_append, inEAfter_append, hX4, hX5]
      simpa using h5
    · simp only [inEAfter, inEAfter_append, hX5]
      exact h6
    · refine Or.inr ⟨X ++ (persistStep cfg c.name record st1).1, rfl, ?_⟩
      simp only [noNavStart, List.all_append, Bool.and_eq_true]
      exact ⟨by simpa [noNavStart] using hX2, by simpa [noNavStart] using h3⟩
    · intro M hM hlt
      have := h7 M hM (by omega)
      simpa [hXa] using this

theorem entityLoop_facts (cfg : DriverConfig) (sched : Sched) :
    ∀ (cs : List Company) (st : CrawlSt),
      (entityLoop cfg sched cs st).2.added =
        st.added + countAppends (entityLoop cfg sched cs st).1 ∧
      noPageEvents (entityLoop cfg sched cs st).1 = true ∧
      pauseSitesOk false (entityLoop cfg sched cs st).1 = true ∧
      inEAfter false (entityLoop cfg sched cs st).1 = false ∧
      (∀ M, cfg.maxCompanies = some M → st.added ≤ M →
        (entityLoop cfg sched cs st).2.added ≤ M) ∧
      (∀ M, cfg.maxCompanies = some M → st.added ≤ M →
        navGuardCheck M st.added (entityLoop cfg sched cs st).1 = true) := by
  intro cs
  induction cs with
  | nil =>
    intro st
    simp [entityLoop, countAppends, noPageEvents, pauseSitesOk, inEAfter, navGuardCheck]
  | cons c cs ih =>
    intro st
    by_cases hs : stopVal sched st.sc = true
    · simp [entityLoop, hs, countAppends, noPageEvents, pauseSitesOk, inEAfter, navGuardCheck,
        bumpSc]
    · rw [Bool.not_eq_true] at hs
      by_cases hcap : capReached cfg st.added = true
      · have hcap2 : capReached cfg (bumpSc st).added = true := by
          simpa [bumpSc] using hcap
        simp [entityLoop, hs, hcap, hcap2, countAppends, noPageEvents, pauseSitesOk, inEAfter,
          navGuardCheck, bumpSc]
      · rw [Bool.not_eq_true] at hcap
        have hcap2 : capReached cfg (bumpSc st).added = false := by
          simpa [bumpSc] using hcap
        have hlt : ∀ M, cfg.maxCompanies = some M → st.added < M := by
          intro M hM
          unfold capReached at hcap
          rw [hM] at hcap
          simpa using hcap
        obtain ⟨hp1, hp2, hp3, hp4, hp5, hp6, hp7⟩ :=
          processCompany_facts cfg sched c (bumpPc (bumpSc st))
        have hadd3 : (processCompany cfg sched c (bumpPc (bumpSc st))).2.1.added =
            st.added + countAppends (processCompany cfg sched c (bumpPc (bumpSc st))).1 := by
          have hre : (bumpPc (bumpSc st)).added = st.added := rfl
          rw [hp1, hre]
        have hnavp : ∀ M, cfg.maxCompanies = some M → st.added ≤ M →
            navGuardCheck M st.added (processCompany cfg sched c (bumpPc (bumpSc st))).1 =
              true := by
          intro M hM hle
          rcases hp6 with h | ⟨restE, hre, hnn⟩
          · rw [h]
            rfl
          · rw [hre]
            simp only [navGuardCheck]
            rw [noNavStart_navGuard M restE st.added hnn]
            simp [hlt M hM]
        by_cases hbrk : (processCompany cfg sched c (bumpPc (bumpSc st))).2.2 = true
        · have heq : entityLoop cfg sched (c :: cs) st =
              (Ev.pauseObserve CheckSite.entityTop (sched.pause (bumpSc st).pc) ::
                (processCompany cfg sched c (bumpPc (bumpSc st))).1,
               (processCompany cfg sched c (bumpPc (bumpSc st))).2.1) := by
            simp only [entityLoop, hs, Bool.false_eq_true, if_false, hcap2, hbrk, if_true,
              List.singleton_append]
          rw [heq]
          refine ⟨?_, ?_, ?_, ?_, ?_, ?_⟩
          · simp only [countAppends]
            exact hadd3
          · simp only [noPageEvents, List.all_cons] at hp3 ⊢
            simpa using hp3
          · simp only [pauseSitesOk, decide_eq_true_eq]
            simp [hp4]
          · simp only [inEAfter]
            exact hp5
          · intro M hM hle
            have h1 := hlt M hM
            rw [hadd3]
            omega
          · intro M hM hle
            simp only [navGuardCheck]
            exact hnavp M hM hle
        · rw [Bool.not_eq_true] at hbrk
          have heq : entityLoop cfg sched (c :: cs) st =
              (Ev.pauseObserve CheckSite.entityTop (sched.pause (bumpSc st).pc) ::
                ((processCompany cfg sched c (bumpPc (bumpSc st))).1 ++
                  (entityLoop cfg sched cs
                    (processCompany cfg sched c (bumpPc (bumpSc st))).2.1).1),
               (entityLoop cfg sched cs
                 (processCompany cfg sched c (bumpPc (bumpSc st))).2.1).2) := by
            simp only [entityLoop, hs, Bool.false_eq_true, if_false, hcap2, hbrk, if_true,
              List.singleton_append]
            rfl
          rw [heq]
          obtain ⟨hi1, hi2, hi3, hi4, hi5, hi6⟩ :=
            ih (processCompany cfg sched c (bumpPc (bumpSc st))).2.1
          have hle3 : ∀ M, cfg.maxCompanies = some M → st.added ≤ M →
              (processCompany cfg sched c (bumpPc (bumpSc st))).2.1.added ≤ M := by
            intro M hM hle
            have := hlt M hM
            omega
          refine ⟨?_, ?_, ?_, ?_, ?_, ?_⟩
          · simp only [countAppends, countAppends_append]
            rw [hi1, hadd3]
            omega
          · simp only [noPageEvents, List.all_cons, List.all_append] at hp3 hi2 ⊢
            simp_all
          · simp only [pauseSitesOk, pauseSitesOk_append, inEAfter_append, hp4, hp5,
              decide_eq_true_eq]
            simp [hp4, hi3]
          · simp only [inEAfter, inEAfter_append, hp5]
            exact hi4
          · intro M hM hle
            exact hi5 M hM (hle3 M hM hle)
          · intro M hM hle
            simp only [navGuardCheck, navGuardCheck_append]
            rw [hnavp M hM hle, ← hadd3, hi6 M hM (hle3 M hM hle)]
            rfl

theorem pageLoop_cases (cfg : DriverConfig) (sched : Sched) (p : PageData)
    (rest : List PageData) (idx : Nat) (st : CrawlSt) :
    (∃ r, (r = TermReason.stopped ∨ r = TermReason.capReached) ∧
      pageLoop cfg sched (p :: rest) idx st = ([Ev.visitPage idx], bumpSc st, r, idx)) ∨
    (∃ entEvs stM r, (r = TermReason.stopped ∨ r = TermReason.capReached) ∧
      PageMidFacts cfg st entEvs stM ∧
      pageLoop cfg sched (p :: rest) idx st =
        (Ev.visitPage idx ::
          Ev.pauseObserve CheckSite.pageTop (sched.pause (bumpSc st).pc) :: entEvs,
         stM, r, idx)) ∨
    (∃ entEvs stM, PageMidFacts cfg st entEvs stM ∧ p.nextButton = none ∧
      pageLoop cfg sched (p :: rest) idx st =
        (Ev.visitPage idx ::
          Ev.pauseObserve CheckSite.pageTop (sched.pause (bumpSc st).pc) :: entEvs,
         stM, TermReason.noNext, idx)) ∨
    (∃ entEvs stM cls, PageMidFacts cfg st entEvs stM ∧ p.nextButton = some cls ∧
      classDisabled cls = true ∧
      pageLoop cfg sched (p :: rest) idx st =
        (Ev.visitPage idx ::
          Ev.pauseObserve CheckSite.pageTop (sched.pause (bumpSc st).pc) :: entEvs,
         stM, TermReason.nextDisabled, idx)) ∨
    (∃ entEvs stM cls, PageMidFacts cfg st entEvs stM ∧ p.nextButton = some cls ∧
      classDisabled cls = false ∧
      pageLoop cfg sched (p :: rest) idx st =
        (Ev.visitPage idx ::
          Ev.pauseObserve CheckSite.pageTop (sched.pause (bumpSc st).pc) ::
            (entEvs ++ Ev.delay :: Ev.nextNav ::
              (pageLoop cfg sched rest (idx + 1) stM).1),
         (pageLoop cfg sched rest (idx + 1) stM).2.1,
         (pageLoop cfg sched rest (idx + 1) stM).2.2.1,
         (pageLoop cfg sched rest (idx + 1) stM).2.2.2)) := by
  by_cases hs : stopVal sched st.sc = true
  · exact Or.inl ⟨.stopped, Or.inl rfl, by simp [pageLoop, hs]⟩
  · rw [Bool.not_eq_true] at hs
    by_cases hcap : capReached cfg st.added = true
    · refine Or.inl ⟨.capReached, Or.inr rfl, ?_⟩
      have hcap2 : capReached cfg (bumpSc st).added = true := by simpa [bumpSc] using hcap
      simp [pageLoop, hs, hcap, hcap2, bumpSc]
    · rw [Bool.not_eq_true] at hcap
      have hcap2 : capReached cfg (bumpSc st).added = false := by simpa [bumpSc] using hcap
      have hmidSkip : PageMidFacts cfg st [] (bumpPc (bumpSc st)) := by
        refine ⟨rfl, rfl, rfl, rfl, ?_⟩
        intro M hM hle
        exact ⟨hle, rfl⟩
      obtain ⟨he1, he2, he3, he4, he5, he6⟩ :=
        entityLoop_facts cfg sched p.companies (bumpPc (bumpSc st))
      have hmidEnt : PageMidFacts cfg st
          (entityLoop cfg sched p.companies (bumpPc (bumpSc st))).1
          (bumpSc (entityLoop cfg sched p.companies (bumpPc (bumpSc st))).2) := by
        refine ⟨by simpa [bumpSc, bumpPc] using he1, he2, he3, he4, ?_⟩
        intro M hM hle
        refine ⟨by simpa [bumpSc, bumpPc] using he5 M hM hle, ?_⟩
        have := he6 M hM hle
        simpa [bumpPc, bumpSc] using this
      by_cases hsp : cfg.startPage ≤ idx
      · by_cases hs2 : stopVal sched (entityLoop cfg sched p.companies (bumpPc (bumpSc st))).2.sc = true
        · have heq : pageLoop cfg sched (p :: rest) idx st =
              (Ev.visitPage idx ::
                Ev.pauseObserve CheckSite.pageTop (sched.pause (bumpSc st).pc) ::
                  (entityLoop cfg sched p.companies (bumpPc (bumpSc st))).1,
               bumpSc (entityLoop cfg sched p.companies (bumpPc (bumpSc st))).2,
               TermReason.stopped, idx) := by
            simp only [pageLoop, hs, Bool.false_eq_true, if_false, hcap2, if_pos hsp,
              hs2, if_true]
            try rfl
          exact Or.inr (Or.inl ⟨_, _, .stopped, Or.inl rfl, hmidEnt, heq⟩)
        · rw [Bool.not_eq_true] at hs2
          by_cases hcap3 : capReached cfg
              (bumpSc (entityLoop cfg sched p.companies (bumpPc (bumpSc st))).2).added = true
          · have heq : pageLoop cfg sched (p :: rest) idx st =
                (Ev.visitPage idx ::
                  Ev.pauseObserve CheckSite.pageTop (sched.pause (bumpSc st).pc) ::
                    (entityLoop cfg sched p.companies (bumpPc (bumpSc st))).1,
                 bumpSc (entityLoop cfg sched p.companies (bumpPc (bumpSc st))).2,
                 TermReason.capReached, idx) := by
              simp only [pageLoop, hs, Bool.false_eq_true, if_false, hcap2, if_pos hsp,
                hs2, hcap3, if_true]
              try rfl
            exact Or.inr (Or.inl ⟨_, _, .capReached, Or.inr rfl, hmidEnt, heq⟩)
          · rw [Bool.not_eq_true] at hcap3
            cases hnb : p.nextButton with
            | none =>
              have heq : pageLoop cfg sched (p :: rest) idx st =
                  (Ev.visitPage idx ::
                    Ev.pauseObserve CheckSite.pageTop (sched.pause (bumpSc st).pc) ::
                      (entityLoop cfg sched p.companies (bumpPc (bumpSc st))).1,
                   bumpSc (entityLoop cfg sched p.companies (bumpPc (bumpSc st))).2,
                   TermReason.noNext, idx) := by
                simp only [pageLoop, hs, Bool.false_eq_true, if_false, hcap2, if_pos hsp,
                  hs2, hcap3, hnb]
                try rfl
              exact Or.inr (Or.inr (Or.inl ⟨_, _, hmidEnt, rfl, heq⟩))
            | some cls =>
              by_cases hdis : classDisabled cls = true
              · have heq : pageLoop cfg sched (p :: rest) idx st =
                    (Ev.visitPage idx ::
                      Ev.pauseObserve CheckSite.pageTop (sched.pause (bumpSc st).pc) ::
                        (entityLoop cfg sched p.companies (bumpPc (bumpSc st))).1,
                     bumpSc (entityLoop cfg sched p.companies (bumpPc (bumpSc st))).2,
                     TermReason.nextDisabled, idx) := by
                  simp only [pageLoop, hs, Bool.false_eq_true, if_false, hcap2, if_pos hsp,
                    hs2, hcap3, hnb, hdis, if_true]
                  try rfl
                exact Or.inr (Or.inr (Or.inr (Or.inl ⟨_, _, cls, hmidEnt, rfl, hdis, heq⟩)))
              · rw [Bool.not_eq_true] at hdis
                have heq : pageLoop cfg sched (p :: rest) idx st =
                    (Ev.visitPage idx ::
                      Ev.pauseObserve CheckSite.pageTop (sched.pause (bumpSc st).pc) ::
                        ((entityLoop cfg sched p.companies (bumpPc (bumpSc st))).1 ++
                          Ev.delay :: Ev.nextNav ::
                            (pageLoop cfg sched rest (idx + 1)
                              (bumpSc (entityLoop cfg sched p.companies (bumpPc (bumpSc st))).2)).1),
                     (pageLoop cfg sched rest (idx + 1)
                        (bumpSc (entityLoop cfg sched p.companies (bumpPc (bumpSc st))).2)).2.1,
                     (pageLoop cfg sched rest (idx + 1)
                        (bumpSc (entityLoop cfg sched p.companies (bumpPc (bumpSc st))).2)).2.2.1,
                     (pageLoop cfg sched rest (idx + 1)
                        (bumpSc (entityLoop cfg sched p.companies (bumpPc (bumpSc st))).2)).2.2.2) := by
                  simp only [pageLoop, hs, Bool.false_eq_true, if_false, hcap2, if_pos hsp,
                    hs2, hcap3, hnb, hdis, List.cons_append, List.append_assoc]
                  try rfl
                exact Or.inr (Or.inr (Or.inr (Or.inr ⟨_, _, cls, hmidEnt, rfl, hdis, heq⟩)))
      · cases hnb : p.nextButton with
        | none =>
          have heq : pageLoop cfg sched (p :: rest) idx st =
              (Ev.visitPage idx ::
                Ev.pauseObserve CheckSite.pageTop (sched.pause (bumpSc st).pc) :: ([] : List Ev),
               bumpPc (bumpSc st), TermReason.noNext, idx) := by
            simp only [pageLoop, hs, Bool.false_eq_true, if_false, hcap2, if_neg hsp, hnb]
            try rfl
          exact Or.inr (Or.inr (Or.inl ⟨_, _, hmidSkip, rfl, heq⟩))
        | some cls =>
          by_cases hdis : classDisabled cls = true
          · have heq : pageLoop cfg sched (p :: rest) idx st =
                (Ev.visitPage idx ::
                  Ev.pauseObserve CheckSite.pageTop (sched.pause (bumpSc st).pc) :: ([] : List Ev),
                 bumpPc (bumpSc st), TermReason.nextDisabled, idx) := by
              simp only [pageLoop, hs, Bool.false_eq_true, if_false, hcap2, if_neg hsp,
                hnb, hdis, if_true]
              try rfl
            exact Or.inr (Or.inr (Or.inr (Or.inl ⟨_, _, cls, hmidSkip, rfl, hdis, heq⟩)))
          · rw [Bool.not_eq_true] at hdis
            have heq : pageLoop cfg sched (p :: rest) idx st =
                (Ev.visitPage idx ::
                  Ev.pauseObserve CheckSite.pageTop (sched.pause (bumpSc st).pc) ::
                    (([] : List Ev) ++ Ev.delay :: Ev.nextNav ::
                      (pageLoop cfg sched rest (idx + 1) (bumpPc (bumpSc st))).1),
                 (pageLoop cfg sched rest (idx + 1) (bumpPc (bumpSc st))).2.1,
                 (pageLoop cfg sched rest (idx + 1) (bumpPc (bumpSc st))).2.2.1,
                 (pageLoop cfg sched rest (idx + 1) (bumpPc (bumpSc st))).2.2.2) := by
              simp only [pageLoop, hs, Bool.false_eq_true, if_false, hcap2, if_neg hsp,
                hnb, hdis, List.cons_append, List.append_assoc]
              try rfl
            exact Or.inr (Or.inr (Or.inr (Or.inr ⟨_, _, cls, hmidSkip, rfl, hdis, heq⟩)))

theorem pageLoop_facts (cfg : DriverConfig) (sched : Sched) :
    ∀ (pages : List PageData) (idx : Nat) (st : CrawlSt),
      (pageLoop cfg sched pages idx st).2.1.added =
        st.added + countAppends (pageLoop cfg sched pages idx st).1 ∧
      pauseSitesOk false (pageLoop cfg sched pages idx st).1 = true ∧
      inEAfter false (pageLoop cfg sched pages idx st).1 = false ∧
      (∀ M, cfg.maxCompanies = some M → st.added ≤ M →
        (pageLoop cfg sched pages idx st).2.1.added ≤ M ∧
        navGuardCheck M st.added (pageLoop cfg sched pages idx st).1 = true) := by
  intro pages
  induction pages with
  | nil =>
    intro idx st
    refine ⟨rfl, rfl, rfl, ?_⟩
    intro M hM hle
    exact ⟨hle, rfl⟩
  | cons p rest ih =>
    intro idx st
    rcases pageLoop_cases cfg sched p rest idx st with
      ⟨r, hr, heq⟩ | ⟨entEvs, stM, r, hr, hmid, heq⟩ | ⟨entEvs, stM, hmid, hnb, heq⟩ |
      ⟨entEvs, stM, cls, hmid, hnb, hdis, heq⟩ | ⟨entEvs, stM, cls, hmid, hnb, hdis, heq⟩
    · rw [heq]
      refine ⟨by simp [countAppends, bumpSc], by simp [pauseSitesOk],
        by simp [inEAfter], ?_⟩
      intro M hM hle
      refine ⟨by simpa [bumpSc] using hle, by simp [navGuardCheck]⟩
    · obtain ⟨hm1, hm2, hm3, hm4, hm5⟩ := hmid
      rw [heq]
      refine ⟨by simp [countAppends, hm1], by simp [pauseSitesOk, hm3],
        by simp [inEAfter, hm4], ?_⟩
      intro M hM hle
      obtain ⟨hstM, hnav⟩ := hm5 M hM hle
      exact ⟨hstM, by simp [navGuardCheck, hnav]⟩
    · obtain ⟨hm1, hm2, hm3, hm4, hm5⟩ := hmid
      rw [heq]
      refine ⟨by simp [countAppends, hm1], by simp [pauseSitesOk, hm3],
        by simp [inEAfter, hm4], ?_⟩
      intro M hM hle
      obtain ⟨hstM, hnav⟩ := hm5 M hM hle
      exact ⟨hstM, by simp [navGuardCheck, hnav]⟩
    · obtain ⟨hm1, hm2, hm3, hm4, hm5⟩ := hmid
      rw [heq]
      refine ⟨by simp [countAppends, hm1], by simp [pauseSitesOk, hm3],
        by simp [inEAfter, hm4], ?_⟩
      intro M hM hle
      obtain ⟨hstM, hnav⟩ := hm5 M hM hle
      exact ⟨hstM, by simp [navGuardCheck, hnav]⟩
    · obtain ⟨hm1, hm2, hm3, hm4, hm5⟩ := hmid
      obtain ⟨ih1, ih2, ih3, ih4⟩ := ih (idx + 1) stM
      rw [heq]
      refine ⟨?_, ?_, ?_, ?_⟩
      · simp only [countAppends, countAppends_append]
        omega
      · simp [pauseSitesOk, pauseSitesOk_append, inEAfter_append, hm3, hm4, ih2]
      · simp [inEAfter, inEAfter_append, hm4, ih3]
      · intro M hM hle
        obtain ⟨hstM, hnav⟩ := hm5 M hM hle
        obtain ⟨ihc, ihn⟩ := ih4 M hM hstM
        refine ⟨ihc, ?_⟩
        have h2 : navGuardCheck M (st.added + countAppends entEvs)
            (pageLoop cfg sched rest (idx + 1) stM).1 = true := by
          rw [← hm1]
          exact ihn
        simp [navGuardCheck, navGuardCheck_append, hnav, h2]

/-- C7 (counterexample): the pause flag is also observed at the top of each
course iteration, which is strictly inside an entity's processing (after its
detail navigation and before its entity end): on a one-page site whose single
company has a course link, with the pause flag set, a pause wait happens
mid-entity. -/
theorem c7_mid_entity_pause_counterexample :
    hasMidEntityPauseWait false
      (runCrawl ⟨1, none⟩ ⟨none, fun _ => true⟩
        [⟨[⟨"A社", "u", DetailOutcome.detail ⟨"", "", "", ""⟩ "iu"
            [("c1", some ⟨"A社", [], [], [], "c1"⟩)] none⟩], none⟩]
        []).trace = true := by
  decide

/-- C7 (amended): every pause observation in a crawl happens at the top of a
loop iteration — page top or entity top outside an entity's processing, and
course top (mid-entity) inside it; no pause is observed at any other point. -/
theorem c7_pause_checkpoints (cfg : DriverConfig) (sched : Sched)
    (site : List PageData) (init : List String) :
    pauseSitesOk false (runCrawl cfg sched site init).trace = true :=
  (pageLoop_facts cfg sched site 1
    { existing := init, added := 0, sc := 0, pc := 0 }).2.1

theorem persistStep_none_brk (sp : Nat) (n : String) (r : CsvRecord) (st : CrawlSt) :
    (persistStep ⟨sp, none⟩ n r st).2.2 = false := by
  rcases hsv : saveRecordIfNew r st.existing with ⟨sk, ex2, per⟩
  cases sk <;> simp [persistStep, hsv, capReached]

theorem processCompany_none_brk (sp : Nat) (sched : Sched) (c : Company) (st : CrawlSt) :
    (processCompany ⟨sp, none⟩ sched c st).2.2 = false := by
  rcases processCompany_cases ⟨sp, none⟩ sched c st with h | h | h |
    ⟨record, X, st1, _, _, _, _, _, _, h⟩ <;> rw [h]
  exact persistStep_none_brk sp c.name record st1

theorem entityLoop_cap_min (sp M : Nat) (sched : Sched) :
    ∀ (cs : List Company) (st : CrawlSt), st.added ≤ M →
      (entityLoop ⟨sp, some M⟩ sched cs st).2.added =
        min M (entityLoop ⟨sp, none⟩ sched cs st).2.added ∧
      ((entityLoop ⟨sp, some M⟩ sched cs st).2.added < M →
        (entityLoop ⟨sp, some M⟩ sched cs st).2 =
          (entityLoop ⟨sp, none⟩ sched cs st).2) := by
  intro cs
  induction cs with
  | nil =>
    intro st hle
    constructor
    · show st.added = min M st.added
      omega
    · intro _
      rfl
  | cons c cs ih =>
    intro st hle
    by_cases hs : stopVal sched st.sc = true
    · have heqM : entityLoop ⟨sp, some M⟩ sched (c :: cs) st = ([], bumpSc st) := by
        simp [entityLoop, hs]
      have heqN : entityLoop ⟨sp, none⟩ sched (c :: cs) st = ([], bumpSc st) := by
        simp [entityLoop, hs]
      rw [heqM, heqN]
      exact ⟨by simp [bumpSc]; omega, fun _ => rfl⟩
    · rw [Bool.not_eq_true] at hs
      by_cases hlt : st.added < M
      · have hcapM : capReached ⟨sp, some M⟩ (bumpSc st).added = false := by
          simp [capReached, bumpSc]; omega
        have hcapN : capReached ⟨sp, none⟩ (bumpSc st).added = false := rfl
        have hbrkN : (processCompany ⟨sp, none⟩ sched c (bumpPc (bumpSc st))).2.2 = false :=
          processCompany_none_brk sp sched c (bumpPc (bumpSc st))
        have heqN : entityLoop ⟨sp, none⟩ sched (c :: cs) st =
            (Ev.pauseObserve CheckSite.entityTop (sched.pause (bumpSc st).pc) ::
              ((processCompany ⟨sp, none⟩ sched c (bumpPc (bumpSc st))).1 ++
                (entityLoop ⟨sp, none⟩ sched cs
                  (processCompany ⟨sp, none⟩ sched c (bumpPc (bumpSc st))).2.1).1),
             (entityLoop ⟨sp, none⟩ sched cs
               (processCompany ⟨sp, none⟩ sched c (bumpPc (bumpSc st))).2.1).2) := by
          simp only [entityLoop, hs, Bool.false_eq_true, if_false, hcapN, hbrkN,
            List.singleton_append, List.cons_append]
          try rfl
        have hind := processCompany_indep sp (some M) none sched c (bumpPc (bumpSc st))
        obtain ⟨hf1, hf2, _, _, _, _, hf7⟩ :=
          processCompany_facts ⟨sp, some M⟩ sched c (bumpPc (bumpSc st))
        have hst2 : (bumpPc (bumpSc st)).added = st.added := rfl
        have hadd : (processCompany ⟨sp, some M⟩ sched c (bumpPc (bumpSc st))).2.1.added =
            (processCompany ⟨sp, none⟩ sched c (bumpPc (bumpSc st))).2.1.added := by
          rw [hind.2]
        have hbrkIff := hf7 M rfl (by omega)
        by_cases hbrk : (processCompany ⟨sp, some M⟩ sched c (bumpPc (bumpSc st))).2.2 = true
        · have heqM : entityLoop ⟨sp, some M⟩ sched (c :: cs) st =
              (Ev.pauseObserve CheckSite.entityTop (sched.pause (bumpSc st).pc) ::
                (processCompany ⟨sp, some M⟩ sched c (bumpPc (bumpSc st))).1,
               (processCompany ⟨sp, some M⟩ sched c (bumpPc (bumpSc st))).2.1) := by
            simp only [entityLoop, hs, Bool.false_eq_true, if_false, hcapM, hbrk,
              if_true, List.singleton_append]
            try rfl
          have hge : (processCompany ⟨sp, some M⟩ sched c (bumpPc (bumpSc st))).2.1.added ≥ M :=
            hbrkIff.mp hbrk
          have hgoal : (processCompany ⟨sp, some M⟩ sched c (bumpPc (bumpSc st))).2.1.added = M := by
            omega
          have hmonoN := (entityLoop_facts ⟨sp, none⟩ sched cs
            (processCompany ⟨sp, none⟩ sched c (bumpPc (bumpSc st))).2.1).1
          rw [heqM, heqN]
          dsimp only
          constructor
          · omega
          · intro h
            exact absurd h (by omega)
        · rw [Bool.not_eq_true] at hbrk
          have heqM : entityLoop ⟨sp, some M⟩ sched (c :: cs) st =
              (Ev.pauseObserve CheckSite.entityTop (sched.pause (bumpSc st).pc) ::
                ((processCompany ⟨sp, some M⟩ sched c (bumpPc (bumpSc st))).1 ++
                  (entityLoop ⟨sp, some M⟩ sched cs
                    (processCompany ⟨sp, some M⟩ sched c (bumpPc (bumpSc st))).2.1).1),
               (entityLoop ⟨sp, some M⟩ sched cs
                 (processCompany ⟨sp, some M⟩ sched c (bumpPc (bumpSc st))).2.1).2) := by
            simp only [entityLoop, hs, Bool.false_eq_true, if_false, hcapM, hbrk,
              List.singleton_append, List.cons_append]
            try rfl
          have hltP : (processCompany ⟨sp, some M⟩ sched c (bumpPc (bumpSc st))).2.1.added < M := by
            by_contra hcon
            have : (processCompany ⟨sp, some M⟩ sched c (bumpPc (bumpSc st))).2.2 = true :=
              hbrkIff.mpr (by omega)
            rw [hbrk] at this
            exact Bool.false_ne_true this
          obtain ⟨ih1, ih2⟩ :=
            ih (processCompany ⟨sp, some M⟩ sched c (bumpPc (bumpSc st))).2.1 (by omega)
          rw [heqM, heqN]
          dsimp only
          rw [← hind.2]
          exact ⟨ih1, ih2⟩
      · have heqM : entityLoop ⟨sp, some M⟩ sched (c :: cs) st = ([], bumpSc st) := by
          have hcapM : capReached ⟨sp, some M⟩ (bumpSc st).added = true := by
            simp [capReached, bumpSc]; omega
          simp only [entityLoop, hs, Bool.false_eq_true, if_false, hcapM, if_true]
        have hmonoN := (entityLoop_facts ⟨sp, none⟩ sched (c :: cs) st).1
        rw [heqM]
        constructor
        · show (bumpSc st).added = _
          simp only [bumpSc]
          omega
        · intro h
          simp only [bumpSc] at h
          exact absurd h (by omega)

theorem bumpSc_added (s : CrawlSt) : (bumpSc s).added = s.added := rfl

theorem bumpPc_added (s : CrawlSt) : (bumpPc s).added = s.added := rfl

theorem pageLoop_cap_min (sp M : Nat) (sched : Sched) :
    ∀ (pages : List PageData) (idx : Nat) (st : CrawlSt), st.added ≤ M →
      (pageLoop ⟨sp, some M⟩ sched pages idx st).2.1.added =
        min M (pageLoop ⟨sp, none⟩ sched pages idx st).2.1.added ∧
      ((pageLoop ⟨sp, some M⟩ sched pages idx st).2.1.added < M →
        (pageLoop ⟨sp, some M⟩ sched pages idx st).2.1 =
          (pageLoop ⟨sp, none⟩ sched pages idx st).2.1) := by
  intro pages
  induction pages with
  | nil =>
    intro idx st hle
    exact ⟨by show st.added = min M st.added; omega, fun _ => rfl⟩
  | cons p rest ih =>
    intro idx st hle
    by_cases hs : stopVal sched st.sc = true
    · have heqM : pageLoop ⟨sp, some M⟩ sched (p :: rest) idx st =
          ([Ev.visitPage idx], bumpSc st, TermReason.stopped, idx) := by
        simp [pageLoop, hs]
      have heqN : pageLoop ⟨sp, none⟩ sched (p :: rest) idx st =
          ([Ev.visitPage idx], bumpSc st, TermReason.stopped, idx) := by
        simp [pageLoop, hs]
      rw [heqM, heqN]
      exact ⟨by simp only [bumpSc_added]; omega, fun _ => rfl⟩
    · rw [Bool.not_eq_true] at hs
      by_cases hlt : st.added < M
      · have hcapM : capReached ⟨sp, some M⟩ (bumpSc st).added = false := by
          simp [capReached, bumpSc]; omega
        have hcapN : capReached ⟨sp, none⟩ (bumpSc st).added = false := rfl
        by_cases hsp : sp ≤ idx
        · obtain ⟨hminE, heqE⟩ := entityLoop_cap_min sp M sched p.companies
            (bumpPc (bumpSc st)) (le_of_lt hlt)
          by_cases hM2 : (entityLoop ⟨sp, some M⟩ sched p.companies
              (bumpPc (bumpSc st))).2.added < M
          · have hEq : (entityLoop ⟨sp, some M⟩ sched p.companies (bumpPc (bumpSc st))).2 =
                (entityLoop ⟨sp, none⟩ sched p.companies (bumpPc (bumpSc st))).2 := heqE hM2
            have hNadd : (entityLoop ⟨sp, none⟩ sched p.companies
                (bumpPc (bumpSc st))).2.added =
                (entityLoop ⟨sp, some M⟩ sched p.companies (bumpPc (bumpSc st))).2.added := by
              rw [hEq]
            by_cases hs2 : stopVal sched
                (entityLoop ⟨sp, some M⟩ sched p.companies (bumpPc (bumpSc st))).2.sc = true
            · have hs2N : stopVal sched
                  (entityLoop ⟨sp, none⟩ sched p.companies (bumpPc (bumpSc st))).2.sc = true := by
                rw [← hEq]; exact hs2
              have heqM2 : pageLoop ⟨sp, some M⟩ sched (p :: rest) idx st =
                  (Ev.visitPage idx ::
                    Ev.pauseObserve CheckSite.pageTop (sched.pause (bumpSc st).pc) ::
                      (entityLoop ⟨sp, some M⟩ sched p.companies (bumpPc (bumpSc st))).1,
                   bumpSc (entityLoop ⟨sp, some M⟩ sched p.companies (bumpPc (bumpSc st))).2,
                   TermReason.stopped, idx) := by
                simp only [pageLoop, hs, Bool.false_eq_true, if_false, hcapM, if_pos hsp,
                  hs2, if_true]
                try rfl
              have heqN2 : pageLoop ⟨sp, none⟩ sched (p :: rest) idx st =
                  (Ev.visitPage idx ::
                    Ev.pauseObserve CheckSite.pageTop (sched.pause (bumpSc st).pc) ::
                      (entityLoop ⟨sp, none⟩ sched p.companies (bumpPc (bumpSc st))).1,
                   bumpSc (entityLoop ⟨sp, none⟩ sched p.companies (bumpPc (bumpSc st))).2,
                   TermReason.stopped, idx) := by
                simp only [pageLoop, hs, Bool.false_eq_true, if_false, hcapN, if_pos hsp,
                  hs2N, if_true]
                try rfl
              rw [heqM2, heqN2]
              dsimp only
              constructor
              · simp only [bumpSc_added]
                omega
              · intro _
                rw [hEq]
            · rw [Bool.not_eq_true] at hs2
              have hs2N : stopVal sched
                  (entityLoop ⟨sp, none⟩ sched p.companies (bumpPc (bumpSc st))).2.sc = false := by
                rw [← hEq]; exact hs2
              have hcap2M : capReached ⟨sp, some M⟩
                  (bumpSc (entityLoop ⟨sp, some M⟩ sched p.companies
                    (bumpPc (bumpSc st))).2).added = false := by
                simp [capReached, bumpSc_added]; omega
              have hcap2N : capReached ⟨sp, none⟩
                  (bumpSc (entityLoop ⟨sp, none⟩ sched p.companies
                    (bumpPc (bumpSc st))).2).added = false := rfl
              cases hnb : p.nextButton with
              | none =>
                have heqM2 : pageLoop ⟨sp, some M⟩ sched (p :: rest) idx st =
                    (Ev.visitPage idx ::
                      Ev.pauseObserve CheckSite.pageTop (sched.pause (bumpSc st).pc) ::
                        (entityLoop ⟨sp, some M⟩ sched p.companies (bumpPc (bumpSc st))).1,
                     bumpSc (entityLoop ⟨sp, some M⟩ sched p.companies (bumpPc (bumpSc st))).2,
                     TermReason.noNext, idx) := by
                  simp only [pageLoop, hs, Bool.false_eq_true, if_false, hcapM, if_pos hsp,
                    hs2, hcap2M, hnb]
                  try rfl
                have heqN2 : pageLoop ⟨sp, none⟩ sched (p :: rest) idx st =
                    (Ev.visitPage idx ::
                      Ev.pauseObserve CheckSite.pageTop (sched.pause (bumpSc st).pc) ::
                        (entityLoop ⟨sp, none⟩ sched p.companies (bumpPc (bumpSc st))).1,
                     bumpSc (entityLoop ⟨sp, none⟩ sched p.companies (bumpPc (bumpSc st))).2,
                     TermReason.noNext, idx) := by
                  simp only [pageLoop, hs, Bool.false_eq_true, if_false, hcapN, if_pos hsp,
                    hs2N, hcap2N, hnb]
                  try rfl
                rw [heqM2, heqN2]
                dsimp only
                constructor
                · simp only [bumpSc_added]
                  omega
                · intro _
                  rw [hEq]
              | some cls =>
                by_cases hdis : classDisabled cls = true
                · have heqM2 : pageLoop ⟨sp, some M⟩ sched (p :: rest) idx st =
                      (Ev.visitPage idx ::
                        Ev.pauseObserve CheckSite.pageTop (sched.pause (bumpSc st).pc) ::
                          (entityLoop ⟨sp, some M⟩ sched p.companies (bumpPc (bumpSc st))).1,
                       bumpSc (entityLoop ⟨sp, some M⟩ sched p.companies (bumpPc (bumpSc st))).2,
                       TermReason.nextDisabled, idx) := by
                    simp only [pageLoop, hs, Bool.false_eq_true, if_false, hcapM, if_pos hsp,
                      hs2, hcap2M, hnb, hdis, if_true]
                    try rfl
                  have heqN2 : pageLoop ⟨sp, none⟩ sched (p :: rest) idx st =
                      (Ev.visitPage idx ::
                        Ev.pauseObserve CheckSite.pageTop (sched.pause (bumpSc st).pc) ::
                          (entityLoop ⟨sp, none⟩ sched p.companies (bumpPc (bumpSc st))).1,
                       bumpSc (entityLoop ⟨sp, none⟩ sched p.companies (bumpPc (bumpSc st))).2,
                       TermReason.nextDisabled, idx) := by
                    simp only [pageLoop, hs, Bool.false_eq_true, if_false, hcapN, if_pos hsp,
                      hs2N, hcap2N, hnb, hdis, if_true]
                    try rfl
                  rw [heqM2, heqN2]
                  dsimp only
                  constructor
                  · simp only [bumpSc_added]
                    omega
                  · intro _
                    rw [hEq]
                · rw [Bool.not_eq_true] at hdis
                  have heqM2 : pageLoop ⟨sp, some M⟩ sched (p :: rest) idx st =
                      (Ev.visitPage idx ::
                        Ev.pauseObserve CheckSite.pageTop (sched.pause (bumpSc st).pc) ::
                          ((entityLoop ⟨sp, some M⟩ sched p.companies (bumpPc (bumpSc st))).1 ++
                            Ev.delay :: Ev.nextNav ::
                              (pageLoop ⟨sp, some M⟩ sched rest (idx + 1)
                                (bumpSc (entityLoop ⟨sp, some M⟩ sched p.companies
                                  (bumpPc (bumpSc st))).2)).1),
                       (pageLoop ⟨sp, some M⟩ sched rest (idx + 1)
                          (bumpSc (entityLoop ⟨sp, some M⟩ sched p.companies
                            (bumpPc (bumpSc st))).2)).2.1,
                       (pageLoop ⟨sp, some M⟩ sched rest (idx + 1)
                          (bumpSc (entityLoop ⟨sp, some M⟩ sched p.companies
                            (bumpPc (bumpSc st))).2)).2.2.1,
                       (pageLoop ⟨sp, some M⟩ sched rest (idx + 1)
                          (bumpSc (entityLoop ⟨sp, some M⟩ sched p.companies
                            (bumpPc (bumpSc st))).2)).2.2.2) := by
                    simp only [pageLoop, hs, Bool.false_eq_true, if_false, hcapM, if_pos hsp,
                      hs2, hcap2M, hnb, hdis, List.cons_append, List.append_assoc]
                    try rfl
                  have heqN2 : pageLoop ⟨sp, none⟩ sched (p :: rest) idx st =
                      (Ev.visitPage idx ::
                        Ev.pauseObserve CheckSite.pageTop (sched.pause (bumpSc st).pc) ::
                          ((entityLoop ⟨sp, none⟩ sched p.companies (bumpPc (bumpSc st))).1 ++
                            Ev.delay :: Ev.nextNav ::
                              (pageLoop ⟨sp, none⟩ sched rest (idx + 1)
                                (bumpSc (entityLoop ⟨sp, none⟩ sched p.companies
                                  (bumpPc (bumpSc st))).2)).1),
                       (pageLoop ⟨sp, none⟩ sched rest (idx + 1)
                          (bumpSc (entityLoop ⟨sp, none⟩ sched p.companies
                            (bumpPc (bumpSc st))).2)).2.1,
                       (pageLoop ⟨sp, none⟩ sched rest (idx + 1)
                          (bumpSc (entityLoop ⟨sp, none⟩ sched p.companies
                            (bumpPc (bumpSc st))).2)).2.2.1,
                       (pageLoop ⟨sp, none⟩ sched rest (idx + 1)
                          (bumpSc (entityLoop ⟨sp, none⟩ sched p.companies
                            (bumpPc (bumpSc st))).2)).2.2.2) := by
                    simp only [pageLoop, hs, Bool.false_eq_true, if_false, hcapN, if_pos hsp,
                      hs2N, hcap2N, hnb, hdis, List.cons_append, List.append_assoc]
                    try rfl
                  have hrw : bumpSc (entityLoop ⟨sp, none⟩ sched p.companies
                        (bumpPc (bumpSc st))).2 =
                      bumpSc (entityLoop ⟨sp, some M⟩ sched p.companies
                        (bumpPc (bumpSc st))).2 := by
                    rw [hEq]
                  obtain ⟨ihm, ihe⟩ := ih (idx + 1)
                    (bumpSc (entityLoop ⟨sp, some M⟩ sched p.companies (bumpPc (bumpSc st))).2)
                    (le_of_lt hM2)
                  rw [heqM2, heqN2, hrw]
                  dsimp only
                  exact ⟨ihm, ihe⟩
          · rw [Nat.not_lt] at hM2
            have hsafe := (entityLoop_facts ⟨sp, some M⟩ sched p.companies
              (bumpPc (bumpSc st))).2.2.2.2.1 M rfl (le_of_lt hlt)
            have hEM : (entityLoop ⟨sp, some M⟩ sched p.companies
                (bumpPc (bumpSc st))).2.added = M := le_antisymm hsafe hM2
            have hNge : M ≤ (entityLoop ⟨sp, none⟩ sched p.companies
                (bumpPc (bumpSc st))).2.added := by
              omega
            have hcfin : (pageLoop ⟨sp, some M⟩ sched (p :: rest) idx st).2.1.added = M := by
              by_cases hs2 : stopVal sched
                  (entityLoop ⟨sp, some M⟩ sched p.companies (bumpPc (bumpSc st))).2.sc = true
              · have heqM2 : pageLoop ⟨sp, some M⟩ sched (p :: rest) idx st =
                    (Ev.visitPage idx ::
                      Ev.pauseObserve CheckSite.pageTop (sched.pause (bumpSc st).pc) ::
                        (entityLoop ⟨sp, some M⟩ sched p.companies (bumpPc (bumpSc st))).1,
                     bumpSc (entityLoop ⟨sp, some M⟩ sched p.companies (bumpPc (bumpSc st))).2,
                     TermReason.stopped, idx) := by
                  simp only [pageLoop, hs, Bool.false_eq_true, if_false, hcapM, if_pos hsp,
                    hs2, if_true]
                  try rfl
                rw [heqM2]
                dsimp only
                simp only [bumpSc_added]
                omega
              · rw [Bool.not_eq_true] at hs2
                have hcap2M : capReached ⟨sp, some M⟩
                    (bumpSc (entityLoop ⟨sp, some M⟩ sched p.companies
                      (bumpPc (bumpSc st))).2).added = true := by
                  simp [capReached, bumpSc_added]; omega
                have heqM2 : pageLoop ⟨sp, some M⟩ sched (p :: rest) idx st =
                    (Ev.visitPage idx ::
                      Ev.pauseObserve CheckSite.pageTop (sched.pause (bumpSc st).pc) ::
                        (entityLoop ⟨sp, some M⟩ sched p.companies (bumpPc (bumpSc st))).1,
                     bumpSc (entityLoop ⟨sp, some M⟩ sched p.companies (bumpPc (bumpSc st))).2,
                     TermReason.capReached, idx) := by
                  simp only [pageLoop, hs, Bool.false_eq_true, if_false, hcapM, if_pos hsp,
                    hs2, hcap2M, if_true]
                  try rfl
                rw [heqM2]
                dsimp only
                simp only [bumpSc_added]
                omega
            have hufin : M ≤ (pageLoop ⟨sp, none⟩ sched (p :: rest) idx st).2.1.added := by
              by_cases hs2N : stopVal sched
                  (entityLoop ⟨sp, none⟩ sched p.companies (bumpPc (bumpSc st))).2.sc = true
              · have heqN2 : pageLoop ⟨sp, none⟩ sched (p :: rest) idx st =
                    (Ev.visitPage idx ::
                      Ev.pauseObserve CheckSite.pageTop (sched.pause (bumpSc st).pc) ::
                        (entityLoop ⟨sp, none⟩ sched p.companies (bumpPc (bumpSc st))).1,
                     bumpSc (entityLoop ⟨sp, none⟩ sched p.companies (bumpPc (bumpSc st))).2,
                     TermReason.stopped, idx) := by
                  simp only [pageLoop, hs, Bool.false_eq_true, if_false, hcapN, if_pos hsp,
                    hs2N, if_true]
                  try rfl
                rw [heqN2]
                dsimp only
                simp only [bumpSc_added]
                omega
              · rw [Bool.not_eq_true] at hs2N
                have hcap2N : capReached ⟨sp, none⟩
                    (bumpSc (entityLoop ⟨sp, none⟩ sched p.companies
                      (bumpPc (bumpSc st))).2).added = false := rfl
                cases hnb : p.nextButton with
                | none =>
                  have heqN2 : pageLoop ⟨sp, none⟩ sched (p :: rest) idx st =
                      (Ev.visitPage idx ::
                        Ev.pauseObserve CheckSite.pageTop (sched.pause (bumpSc st).pc) ::
                          (entityLoop ⟨sp, none⟩ sched p.companies (bumpPc (bumpSc st))).1,
                       bumpSc (entityLoop ⟨sp, none⟩ sched p.companies (bumpPc (bumpSc st))).2,
                       TermReason.noNext, idx) := by
                    simp only [pageLoop, hs, Bool.false_eq_true, if_false, hcapN, if_pos hsp,
                      hs2N, hcap2N, hnb]
                    try rfl
                  rw [heqN2]
                  dsimp only
                  simp only [bumpSc_added]
                  omega
                | some cls =>
                  by_cases hdis : classDisabled cls = true
                  · have heqN2 : pageLoop ⟨sp, none⟩ sched (p :: rest) idx st =
                        (Ev.visitPage idx ::
                          Ev.pauseObserve CheckSite.pageTop (sched.pause (bumpSc st).pc) ::
                            (entityLoop ⟨sp, none⟩ sched p.companies (bumpPc (bumpSc st))).1,
                         bumpSc (entityLoop ⟨sp, none⟩ sched p.companies (bumpPc (bumpSc st))).2,
                         TermReason.nextDisabled, idx) := by
                      simp only [pageLoop, hs, Bool.false_eq_true, if_false, hcapN, if_pos hsp,
                        hs2N, hcap2N, hnb, hdis, if_true]
                      try rfl
                    rw [heqN2]
                    dsimp only
                    simp only [bumpSc_added]
                    omega
                  · rw [Bool.not_eq_true] at hdis
                    have heqN2 : pageLoop ⟨sp, none⟩ sched (p :: rest) idx st =
                        (Ev.visitPage idx ::
                          Ev.pauseObserve CheckSite.pageTop (sched.pause (bumpSc st).pc) ::
                            ((entityLoop ⟨sp, none⟩ sched p.companies (bumpPc (bumpSc st))).1 ++
                              Ev.delay :: Ev.nextNav ::
                                (pageLoop ⟨sp, none⟩ sched rest (idx + 1)
                                  (bumpSc (entityLoop ⟨sp, none⟩ sched p.companies
                                    (bumpPc (bumpSc st))).2)).1),
                         (pageLoop ⟨sp, none⟩ sched rest (idx + 1)
                            (bumpSc (entityLoop ⟨sp, none⟩ sched p.companies
                              (bumpPc (bumpSc st))).2)).2.1,
                         (pageLoop ⟨sp, none⟩ sched rest (idx + 1)
                            (bumpSc (entityLoop ⟨sp, none⟩ sched p.companies
                              (bumpPc (bumpSc st))).2)).2.2.1,
                         (pageLoop ⟨sp, none⟩ sched rest (idx + 1)
                            (bumpSc (entityLoop ⟨sp, none⟩ sched p.companies
                              (bumpPc (bumpSc st))).2)).2.2.2) := by
                      simp only [pageLoop, hs, Bool.false_eq_true, if_false, hcapN, if_pos hsp,
                        hs2N, hcap2N, hnb, hdis, List.cons_append, List.append_assoc]
                      try rfl
                    have hm := (pageLoop_facts ⟨sp, none⟩ sched rest (idx + 1)
                      (bumpSc (entityLoop ⟨sp, none⟩ sched p.companies
                        (bumpPc (bumpSc st))).2)).1
                    rw [heqN2]
                    dsimp only
                    simp only [bumpSc_added] at hm ⊢
                    omega
            constructor
            · omega
            · intro h
              rw [hcfin] at h
              exact absurd h (by omega)
        · cases hnb : p.nextButton with
          | none =>
            have heqM2 : pageLoop ⟨sp, some M⟩ sched (p :: rest) idx st =
                (Ev.visitPage idx ::
                  Ev.pauseObserve CheckSite.pageTop (sched.pause (bumpSc st).pc) :: ([] : List Ev),
                 bumpPc (bumpSc st), TermReason.noNext, idx) := by
              simp only [pageLoop, hs, Bool.false_eq_true, if_false, hcapM, if_neg hsp, hnb]
              try rfl
            have heqN2 : pageLoop ⟨sp, none⟩ sched (p :: rest) idx st =
                (Ev.visitPage idx ::
                  Ev.pauseObserve CheckSite.pageTop (sched.pause (bumpSc st).pc) :: ([] : List Ev),
                 bumpPc (bumpSc st), TermReason.noNext, idx) := by
              simp only [pageLoop, hs, Bool.false_eq_true, if_false, hcapN, if_neg hsp, hnb]
              try rfl
            rw [heqM2, heqN2]
            dsimp only
            constructor
            · simp only [bumpPc_added, bumpSc_added]
              omega
            · intro _
              rfl
          | some cls =>
            by_cases hdis : classDisabled cls = true
            · have heqM2 : pageLoop ⟨sp, some M⟩ sched (p :: rest) idx st =
                  (Ev.visitPage idx ::
                    Ev.pauseObserve CheckSite.pageTop (sched.pause (bumpSc st).pc) :: ([] : List Ev),
                   bumpPc (bumpSc st), TermReason.nextDisabled, idx) := by
                simp only [pageLoop, hs, Bool.false_eq_true, if_false, hcapM, if_neg hsp,
                  hnb, hdis, if_true]
                try rfl
              have heqN2 : pageLoop ⟨sp, none⟩ sched (p :: rest) idx st =
                  (Ev.visitPage idx ::
                    Ev.pauseObserve CheckSite.pageTop (sched.pause (bumpSc st).pc) :: ([] : List Ev),
                   bumpPc (bumpSc st), TermReason.nextDisabled, idx) := by
                simp only [pageLoop, hs, Bool.false_eq_true, if_false, hcapN, if_neg hsp,
                  hnb, hdis, if_true]
                try rfl
              rw [heqM2, heqN2]
              dsimp only
              constructor
              · simp only [bumpPc_added, bumpSc_added]
                omega
              · intro _
                rfl
            · rw [Bool.not_eq_true] at hdis
              have heqM2 : pageLoop ⟨sp, some M⟩ sched (p :: rest) idx st =
                  (Ev.visitPage idx ::
                    Ev.pauseObserve CheckSite.pageTop (sched.pause (bumpSc st).pc) ::
                      (([] : List Ev) ++ Ev.delay :: Ev.nextNav ::
                        (pageLoop ⟨sp, some M⟩ sched rest (idx + 1) (bumpPc (bumpSc st))).1),
                   (pageLoop ⟨sp, some M⟩ sched rest (idx + 1) (bumpPc (bumpSc st))).2.1,
                   (pageLoop ⟨sp, some M⟩ sched rest (idx + 1) (bumpPc (bumpSc st))).2.2.1,
                   (pageLoop ⟨sp, some M⟩ sched rest (idx + 1) (bumpPc (bumpSc st))).2.2.2) := by
                simp only [pageLoop, hs, Bool.false_eq_true, if_false, hcapM, if_neg hsp,
                  hnb, hdis, List.cons_append, List.append_assoc]
                try rfl
              have heqN2 : pageLoop ⟨sp, none⟩ sched (p :: rest) idx st =
                  (Ev.visitPage idx ::
                    Ev.pauseObserve CheckSite.pageTop (sched.pause (bumpSc st).pc) ::
                      (([] : List Ev) ++ Ev.delay :: Ev.nextNav ::
                        (pageLoop ⟨sp, none⟩ sched rest (idx + 1) (bumpPc (bumpSc st))).1),
                   (pageLoop ⟨sp, none⟩ sched rest (idx + 1) (bumpPc (bumpSc st))).2.1,
                   (pageLoop ⟨sp, none⟩ sched rest (idx + 1) (bumpPc (bumpSc st))).2.2.1,
                   (pageLoop ⟨sp, none⟩ sched rest (idx + 1) (bumpPc (bumpSc st))).2.2.2) := by
                simp only [pageLoop, hs, Bool.false_eq_true, if_false, hcapN, if_neg hsp,
                  hnb, hdis, List.cons_append, List.append_assoc]
                try rfl
              obtain ⟨ihm, ihe⟩ := ih (idx + 1) (bumpPc (bumpSc st)) (le_of_lt hlt)
              rw [heqM2, heqN2]
              dsimp only
              exact ⟨ihm, ihe⟩
      · have hcapM : capReached ⟨sp, some M⟩ (bumpSc st).added = true := by
          simp [capReached, bumpSc]; omega
        have heqM : pageLoop ⟨sp, some M⟩ sched (p :: rest) idx st =
            ([Ev.visitPage idx], bumpSc st, TermReason.capReached, idx) := by
          simp only [pageLoop, hs, Bool.false_eq_true, if_false, hcapM, if_true]
        have hmonoN := (pageLoop_facts ⟨sp, none⟩ sched (p :: rest) idx st).1
        rw [heqM]
        dsimp only
        constructor
        · simp only [bumpSc_added]
          omega
        · intro h
          simp only [bumpSc_added] at h
          exact absurd h (by omega)

/-- C3: with a configured cap of M, on any source that an uncapped run would
mine for more than M new records, the capped run appends exactly M records,
and every detail navigation it performs starts while fewer than M records
have been appended — the run halts before starting the (M+1)-th new
company's navigation. -/
theorem c3_insert_cap (sp M : Nat) (sched : Sched) (site : List PageData)
    (init : List String)
    (h : M < countAppends (runCrawl ⟨sp, none⟩ sched site init).trace) :
    countAppends (runCrawl ⟨sp, some M⟩ sched site init).trace = M ∧
    navGuardCheck M 0 (runCrawl ⟨sp, some M⟩ sched site init).trace = true := by
  have hfM := pageLoop_facts ⟨sp, some M⟩ sched site 1
    { existing := init, added := 0, sc := 0, pc := 0 }
  have hfN : (pageLoop ⟨sp, none⟩ sched site 1
      { existing := init, added := 0, sc := 0, pc := 0 }).2.1.added =
      countAppends (pageLoop ⟨sp, none⟩ sched site 1
        { existing := init, added := 0, sc := 0, pc := 0 }).1 := by
    simpa using (pageLoop_facts ⟨sp, none⟩ sched site 1
      { existing := init, added := 0, sc := 0, pc := 0 }).1
  have hmin := (pageLoop_cap_min sp M sched site 1
    { existing := init, added := 0, sc := 0, pc := 0 } (Nat.zero_le M)).1
  have htrM : (runCrawl ⟨sp, some M⟩ sched site init).trace =
      (pageLoop ⟨sp, some M⟩ sched site 1
        { existing := init, added := 0, sc := 0, pc := 0 }).1 := rfl
  have htrN : (runCrawl ⟨sp, none⟩ sched site init).trace =
      (pageLoop ⟨sp, none⟩ sched site 1
        { existing := init, added := 0, sc := 0, pc := 0 }).1 := rfl
  rw [htrN] at h
  have hfM1 : (pageLoop ⟨sp, some M⟩ sched site 1
      { existing := init, added := 0, sc := 0, pc := 0 }).2.1.added =
      countAppends (pageLoop ⟨sp, some M⟩ sched site 1
        { existing := init, added := 0, sc := 0, pc := 0 }).1 := by
    simpa using hfM.1
  have hx : min M (pageLoop ⟨sp, none⟩ sched site 1
      { existing := init, added := 0, sc := 0, pc := 0 }).2.1.added = M :=
    min_eq_left (by omega)
  rw [hx] at hmin
  constructor
  · rw [htrM]
    omega
  · rw [htrM]
    exact (hfM.2.2.2 M rfl (Nat.zero_le M)).2

theorem c3_insert_cap_witness :
    1 < countAppends (runCrawl ⟨1, none⟩ ⟨none, fun _ => false⟩
      [⟨[⟨"A社", "u", DetailOutcome.detail ⟨"", "", "", ""⟩ "ia" [] none⟩,
         ⟨"B社", "v", DetailOutcome.detail ⟨"", "", "", ""⟩ "ib" [] none⟩], none⟩]
      []).trace ∧
    (countAppends (runCrawl ⟨1, some 1⟩ ⟨none, fun _ => false⟩
      [⟨[⟨"A社", "u", DetailOutcome.detail ⟨"", "", "", ""⟩ "ia" [] none⟩,
         ⟨"B社", "v", DetailOutcome.detail ⟨"", "", "", ""⟩ "ib" [] none⟩], none⟩]
      []).trace = 1 ∧
     navGuardCheck 1 0 (runCrawl ⟨1, some 1⟩ ⟨none, fun _ => false⟩
      [⟨[⟨"A社", "u", DetailOutcome.detail ⟨"", "", "", ""⟩ "ia" [] none⟩,
         ⟨"B社", "v", DetailOutcome.detail ⟨"", "", "", ""⟩ "ib" [] none⟩], none⟩]
      []).trace = true) :=
  ⟨by decide,
   c3_insert_cap 1 1 ⟨none, fun _ => false⟩
     [⟨[⟨"A社", "u", DetailOutcome.detail ⟨"", "", "", ""⟩ "ia" [] none⟩,
        ⟨"B社", "v", DetailOutcome.detail ⟨"", "", "", ""⟩ "ib" [] none⟩], none⟩]
     [] (by decide)⟩

theorem noPageEvents_pageNav : ∀ a : List Ev, noPageEvents a = true → pageNavEvents a = [] := by
  intro a
  induction a with
  | nil => intro _; rfl
  | cons e t ih =>
    intro h
    simp only [noPageEvents, List.all_cons, Bool.and_eq_true] at h
    cases e <;> simp_all [pageNavEvents, noPageEvents, List.filter_cons]

theorem navPattern_succ (k n : Nat) (h : 1 ≤ n) :
    navPattern k (n + 1) =
      Ev.visitPage k :: Ev.delay :: Ev.nextNav :: navPattern (k + 1) n := by
  cases n with
  | zero => exact absurd h (by omega)
  | succ m => rfl

theorem pageNavEvents_visit (i : Nat) (t : List Ev) :
    pageNavEvents (Ev.visitPage i :: t) = Ev.visitPage i :: pageNavEvents t := by
  simp [pageNavEvents, List.filter_cons]

theorem pageNavEvents_pause (s : CheckSite) (b : Bool) (t : List Ev) :
    pageNavEvents (Ev.pauseObserve s b :: t) = pageNavEvents t := by
  simp [pageNavEvents, List.filter_cons]

theorem pageNavEvents_delay (t : List Ev) :
    pageNavEvents (Ev.delay :: t) = Ev.delay :: pageNavEvents t := by
  simp [pageNavEvents, List.filter_cons]

theorem pageNavEvents_nextNav (t : List Ev) :
    pageNavEvents (Ev.nextNav :: t) = Ev.nextNav :: pageNavEvents t := by
  simp [pageNavEvents, List.filter_cons]

theorem pageLoop_pagination (cfg : DriverConfig) (sched : Sched) :
    ∀ (pages : List PageData) (idx : Nat) (st : CrawlSt),
      ((pageLoop cfg sched pages idx st).2.2.1 ≠ TermReason.ranOffSite →
        ∃ n, 1 ≤ n ∧
          pageNavEvents (pageLoop cfg sched pages idx st).1 = navPattern idx n ∧
          (pageLoop cfg sched pages idx st).2.2.2 = idx + n - 1 ∧
          ((pageLoop cfg sched pages idx st).2.2.1 = TermReason.noNext →
            ∃ p, pages.get? (n - 1) = some p ∧ p.nextButton = none) ∧
          ((pageLoop cfg sched pages idx st).2.2.1 = TermReason.nextDisabled →
            ∃ p cls, pages.get? (n - 1) = some p ∧ p.nextButton = some cls ∧
              classDisabled cls = true)) ∧
      ((pageLoop cfg sched pages idx st).2.2.1 = TermReason.ranOffSite →
        ∀ p, pages.getLast? = some p →
          ∃ cls, p.nextButton = some cls ∧ classDisabled cls = false) := by
  intro pages
  induction pages with
  | nil =>
    intro idx st
    constructor
    · intro hne
      exact absurd rfl hne
    · intro _ p hp
      simp at hp
  | cons p rest ih =>
    intro idx st
    rcases pageLoop_cases cfg sched p rest idx st with
      ⟨r, hr, heq⟩ | ⟨entEvs, stM, r, hr, hmid, heq⟩ | ⟨entEvs, stM, hmid, hnb, heq⟩ |
      ⟨entEvs, stM, cls, hmid, hnb, hdis, heq⟩ | ⟨entEvs, stM, cls, hmid, hnb, hdis, heq⟩
    · rw [heq]
      dsimp only
      constructor
      · intro _
        refine ⟨1, le_refl 1, by simp [pageNavEvents, navPattern], by omega, ?_, ?_⟩
        · intro h
          rcases hr with rfl | rfl <;> simp at h
        · intro h
          rcases hr with rfl | rfl <;> simp at h
      · intro h
        rcases hr with rfl | rfl <;> simp at h
    · rw [heq]
      dsimp only
      constructor
      · intro _
        refine ⟨1, le_refl 1,
          by rw [pageNavEvents_visit, pageNavEvents_pause,
            noPageEvents_pageNav entEvs hmid.2.1]; rfl, by omega, ?_, ?_⟩
        · intro h
          rcases hr with rfl | rfl <;> simp at h
        · intro h
          rcases hr with rfl | rfl <;> simp at h
      · intro h
        rcases hr with rfl | rfl <;> simp at h
    · rw [heq]
      dsimp only
      constructor
      · intro _
        refine ⟨1, le_refl 1,
          by rw [pageNavEvents_visit, pageNavEvents_pause,
            noPageEvents_pageNav entEvs hmid.2.1]; rfl, by omega, ?_, ?_⟩
        · intro _
          exact ⟨p, rfl, hnb⟩
        · intro h
          simp at h
      · intro h
        simp at h
    · rw [heq]
      dsimp only
      constructor
      · intro _
        refine ⟨1, le_refl 1,
          by rw [pageNavEvents_visit, pageNavEvents_pause,
            noPageEvents_pageNav entEvs hmid.2.1]; rfl, by omega, ?_, ?_⟩
        · intro h
          simp at h
        · intro _
          exact ⟨p, cls, rfl, hnb, hdis⟩
      · intro h
        simp at h
    · obtain ⟨ih1, ih2⟩ := ih (idx + 1) stM
      rw [heq]
      dsimp only
      constructor
      · intro hne
        obtain ⟨n, hn1, hnav, hlast, hnoNext, hdis2⟩ := ih1 hne
        refine ⟨n + 1, by omega, ?_, by omega, ?_, ?_⟩
        · rw [navPattern_succ idx n hn1]
          have hmidNav : pageNavEvents (entEvs ++ Ev.delay :: Ev.nextNav ::
              (pageLoop cfg sched rest (idx + 1) stM).1) =
              Ev.delay :: Ev.nextNav ::
                pageNavEvents (pageLoop cfg sched rest (idx + 1) stM).1 := by
            rw [pageNavEvents_append, noPageEvents_pageNav entEvs hmid.2.1,
              pageNavEvents_delay, pageNavEvents_nextNav, List.nil_append]
          rw [pageNavEvents_visit, pageNavEvents_pause, hmidNav, hnav]
          try rfl
        · intro h
          obtain ⟨q, hq, hqn⟩ := hnoNext h
          refine ⟨q, ?_, hqn⟩
          cases n with
          | zero => omega
          | succ m => simpa using hq
        · intro h
          obtain ⟨q, c2, hq, hqn, hqd⟩ := hdis2 h
          refine ⟨q, c2, ?_, hqn, hqd⟩
          cases n with
          | zero => omega
          | succ m => simpa using hq
      · intro hran q hq
        cases rest with
        | nil =>
          have hq2 : p = q := by simpa using hq
          exact hq2 ▸ ⟨cls, hnb, hdis⟩
        | cons r2 rs =>
          have hq2 : (r2 :: rs).getLast? = some q := by
            simpa [List.getLast?_cons_cons] using hq
          exact ih2 hran q hq2

/-- C4: on a well-formed site (last page's next control absent or disabled),
the pagination loop never runs off the site: its page-level events follow the
pattern visit, delay, next-navigation, visit with indices increasing by one
from the start page; the reported last page equals the number of page
iterations entered; and termination through the next-page checks means the
page just processed had its next control absent (noNext) or marked disabled
(nextDisabled) — otherwise stop or cap fired earlier. -/
theorem c4_pagination (cfg : DriverConfig) (sched : Sched) (site : List PageData)
    (init : List String) (hclosed : siteClosed site) :
    (runCrawl cfg sched site init).reason ≠ TermReason.ranOffSite ∧
    ∃ n, 1 ≤ n ∧
      pageNavEvents (runCrawl cfg sched site init).trace = navPattern 1 n ∧
      (runCrawl cfg sched site init).lastReport = n ∧
      ((runCrawl cfg sched site init).reason = TermReason.noNext →
        ∃ p, site.get? (n - 1) = some p ∧ p.nextButton = none) ∧
      ((runCrawl cfg sched site init).reason = TermReason.nextDisabled →
        ∃ p cls, site.get? (n - 1) = some p ∧ p.nextButton = some cls ∧
          classDisabled cls = true) := by
  obtain ⟨hp1, hp2⟩ := pageLoop_pagination cfg sched site 1
    { existing := init, added := 0, sc := 0, pc := 0 }
  have hre : (runCrawl cfg sched site init).reason =
      (pageLoop cfg sched site 1
        { existing := init, added := 0, sc := 0, pc := 0 }).2.2.1 := rfl
  have htr : (runCrawl cfg sched site init).trace =
      (pageLoop cfg sched site 1
        { existing := init, added := 0, sc := 0, pc := 0 }).1 := rfl
  have hla : (runCrawl cfg sched site init).lastReport =
      (pageLoop cfg sched site 1
        { existing := init, added := 0, sc := 0, pc := 0 }).2.2.2 := rfl
  have hr : (pageLoop cfg sched site 1
      { existing := init, added := 0, sc := 0, pc := 0 }).2.2.1 ≠
      TermReason.ranOffSite := by
    intro h
    obtain ⟨p, hple, hcase⟩ := hclosed
    obtain ⟨cls, hsome, hfalse⟩ := hp2 h p hple
    rcases hcase with h1 | ⟨c2, h2, h3⟩
    · rw [h1] at hsome
      cases hsome
    · rw [h2] at hsome
      injection hsome with hc
      rw [← hc] at hfalse
      rw [h3] at hfalse
      cases hfalse
  obtain ⟨n, hn1, hnav, hlast, hnn, hnd⟩ := hp1 hr
  refine ⟨by rw [hre]; exact hr, n, hn1, by rw [htr]; exact hnav,
    by rw [hla]; omega, ?_, ?_⟩
  · intro h
    rw [hre] at h
    exact hnn h
  · intro h
    rw [hre] at h
    exact hnd h

theorem c4_pagination_witness :
    (runCrawl ⟨1, none⟩ ⟨none, fun _ => false⟩
      [⟨[⟨"A社", "u", DetailOutcome.fail⟩], none⟩] []).reason ≠
        TermReason.ranOffSite ∧
    ∃ n, 1 ≤ n ∧
      pageNavEvents (runCrawl ⟨1, none⟩ ⟨none, fun _ => false⟩
        [⟨[⟨"A社", "u", DetailOutcome.fail⟩], none⟩] []).trace = navPattern 1 n ∧
      (runCrawl ⟨1, none⟩ ⟨none, fun _ => false⟩
        [⟨[⟨"A社", "u", DetailOutcome.fail⟩], none⟩] []).lastReport = n ∧
      ((runCrawl ⟨1, none⟩ ⟨none, fun _ => false⟩
        [⟨[⟨"A社", "u", DetailOutcome.fail⟩], none⟩] []).reason = TermReason.noNext →
        ∃ p, [(⟨[⟨"A社", "u", DetailOutcome.fail⟩], none⟩ : PageData)].get? (n - 1) =
          some p ∧ p.nextButton = none) ∧
      ((runCrawl ⟨1, none⟩ ⟨none, fun _ => false⟩
        [⟨[⟨"A社", "u", DetailOutcome.fail⟩], none⟩] []).reason =
          TermReason.nextDisabled →
        ∃ p cls, [(⟨[⟨"A社", "u", DetailOutcome.fail⟩], none⟩ : PageData)].get? (n - 1) =
          some p ∧ p.nextButton = some cls ∧ classDisabled cls = true) :=
  c4_pagination ⟨1, none⟩ ⟨none, fun _ => false⟩
    [⟨[⟨"A社", "u", DetailOutcome.fail⟩], none⟩] []
    ⟨⟨[⟨"A社", "u", DetailOutcome.fail⟩], none⟩, rfl, Or.inl rfl⟩
